import Mathlib

/-!
Verification development for the TestAgentClient agent-session orchestrator.

The definitions below are a shallow embedding of the server code:
* AgentManager (agent-manager.ts): handleAgentEvents, handleAgentFinished,
  terminateAgent, spawnAgent exit listener, extractAndPushTestcases,
  pushToSSEQueue, registerSSECallback, cleanup.
* plan.service.ts: upsertPlan, updatePhaseStarted, updatePhaseCompleted,
  updatePlanStatus.
* chat.service.ts / chat.routes.ts: sendMessageStreaming drain loop and the
  interrupt route.

External collaborators (the JS JSON.parse builtin and the tool-display
module, which is not part of the sources) are parameters of the model.
The Redis forensic cache and the Socket.IO broadcast bus are omitted:
no claim below mentions them, and they feed no state read by the
modelled handlers.
-/

namespace TAC

/-- JSON-like values, the shape JSON.parse can return. -/
inductive Jv where
  | str (s : String)
  | num (n : Int)
  | boolean (b : Bool)
  | null
  | arr (elems : List Jv)
  | obj (fields : List (String × Jv))

/-- Field access on a JSON object; any non-object yields nothing
(in JS, property access on arrays and scalars yields undefined). -/
def objLookup : Jv → String → Option Jv
  | .obj fields, k => go fields k
  | _, _ => none
where
  go : List (String × Jv) → String → Option Jv
  | [], _ => none
  | (k, v) :: rest, k0 => if k = k0 then some v else go rest k0

/-- JS nullish coalescing x ?? d: the default applies on a missing field
and on an explicit null. -/
def jsGetOr (v : Jv) (k : String) (dflt : Jv) : Jv :=
  match objLookup v k with
  | some .null => dflt
  | some w => w
  | none => dflt

/-- Association-list lookup (JS Map.get). -/
def alistLookup {α : Type} : List (String × α) → String → Option α
  | [], _ => none
  | (k, v) :: rest, k0 => if k = k0 then some v else alistLookup rest k0

/-- Association-list insert-or-replace (JS Map.set, object spread with a key). -/
def alistInsert {α : Type} : List (String × α) → String → α → List (String × α)
  | [], k0, v0 => [(k0, v0)]
  | (k, v) :: rest, k0, v0 =>
      if k = k0 then (k, v0) :: rest else (k, v) :: alistInsert rest k0 v0

/-- Apply a function to the entry under a key when present, else no change
(a prisma update whose failure on a missing row is caught). -/
def alistUpdate {α : Type} (f : α → α) : List (String × α) → String → List (String × α)
  | [], _ => []
  | (k, v) :: rest, k0 =>
      if k = k0 then (k, f v) :: rest else (k, v) :: alistUpdate f rest k0

/-- Remove the entry under a key (JS Map.delete). -/
def alistEraseKey {α : Type} : List (String × α) → String → List (String × α)
  | [], _ => []
  | (k, v) :: rest, k0 =>
      if k = k0 then rest else (k, v) :: alistEraseKey rest k0

/-- Add an element to a list-modelled set when absent (JS Set.add). -/
def setAdd (l : List String) (x : String) : List String :=
  if l.contains x then l else l ++ [x]

section PlanService

/-- Persisted coordinator plan row (prisma model CoordinatorPlan),
from plan.service.ts. -/
structure PlanRow where
  objective : String
  plan : Jv
  activePhase : Option Int
  completedPhases : List Int
  phaseOutputs : List (String × Jv)
  status : String

/-- Input to upsertPlan (interface CoordinatorPlanData in plan.service.ts). -/
structure CoordinatorPlanData where
  objective : String
  plan : Jv
  activePhase : Option Int := none
  completedPhases : List Int := []
  phaseOutputs : Option (List (String × Jv)) := none
  status : Option String := none

/-- plan.service.ts upsertPlan: create or replace the plan row keyed by
conversationId; update and create branches write the same fields. -/
def upsertPlan (plans : List (String × PlanRow)) (conversationId : String)
    (d : CoordinatorPlanData) : List (String × PlanRow) :=
  alistInsert plans conversationId
    { objective := d.objective
      plan := d.plan
      activePhase := d.activePhase
      completedPhases := d.completedPhases
      phaseOutputs := d.phaseOutputs.getD []
      status := d.status.getD "running" }

/-- plan.service.ts updatePhaseStarted: set the active phase and the running
status; a missing row makes the prisma update throw, which is caught. -/
def updatePhaseStarted (plans : List (String × PlanRow)) (conversationId : String)
    (phaseIndex : Int) : List (String × PlanRow) :=
  alistUpdate (fun p => { p with activePhase := some phaseIndex, status := "running" })
    plans conversationId

/-- plan.service.ts updatePhaseCompleted, lines 178-224: read the existing
row (return when absent), append the phase to completedPhases unless already
present, merge the optional evaluation into phaseOutputs under the key
phase_{n}, and clear activePhase when it equals the completed phase. -/
def updatePhaseCompleted (plans : List (String × PlanRow)) (conversationId : String)
    (phaseIndex : Int) (phaseOutput : Option Jv) : List (String × PlanRow) :=
  match alistLookup plans conversationId with
  | none => plans
  | some existingPlan =>
      let completedPhases :=
        if existingPlan.completedPhases.contains phaseIndex then
          existingPlan.completedPhases
        else
          existingPlan.completedPhases ++ [phaseIndex]
      let phaseOutputs :=
        match phaseOutput with
        | some o => alistInsert existingPlan.phaseOutputs
            ("phase_" ++ toString phaseIndex) o
        | none => existingPlan.phaseOutputs
      alistUpdate (fun p =>
        { p with
          completedPhases := completedPhases
          phaseOutputs := phaseOutputs
          activePhase :=
            if existingPlan.activePhase = some phaseIndex then none
            else existingPlan.activePhase })
        plans conversationId

/-- plan.service.ts updatePlanStatus: overwrite the status column;
a missing row is a caught no-op. -/
def updatePlanStatus (plans : List (String × PlanRow)) (conversationId : String)
    (status : String) : List (String × PlanRow) :=
  alistUpdate (fun p => { p with status := status }) plans conversationId

end PlanService

section EventModel

/-- Payload of a coordinator event (the data record the Python side sends),
with the fields the dispatcher reads, already typed per the agent contract. -/
structure CoordData where
  phase : Option Int := none
  evaluation : Option Jv := none
  planDoc : Option Jv := none

/-- Structured agent events (type AgentEvent in agent/types.ts). -/
inductive AgentEvent where
  | text (content : String)
  | thinking (content : String)
  | toolCall (id name input : String)
  | toolResult (id name output : String) (success : Bool)
  | coordinatorEvent (eventType : String) (data : CoordData)

/-- Messages pushed to the SSE queue callbacks (the downstream events). -/
inductive SSEMsg where
  | chunk (content : String)
  | thinking (content : String)
  | toolCall (id name input : String)
  | toolResult (id name output : String) (success : Bool)
  | coordinatorEvent (eventType : String) (data : CoordData)
  | testcases (status count : Jv) (cases : List Jv)
  | cancelled (message : String)

/-- Content blocks of an assistant message under assembly. -/
inductive ContentBlock where
  | text (t : String)
  | thinking (t : String)

/-- One entry of PendingReply.messages; the field accumulatedContent mirrors
the _accumulated_content bookkeeping field. -/
structure PendingMsg where
  id : Option String := none
  accumulatedContent : String := ""
  content : List ContentBlock := []
  role : String := "assistant"

/-- In-memory per-reply state (type PendingReply in agent/types.ts). -/
structure PendingReply where
  conversationId : String
  replyId : String
  userId : String
  messages : List PendingMsg
  finished : Bool
  cancelled : Bool := false

/-- A persisted chat message row; id none stands for a database-generated
fresh id (prisma message.create without an explicit id). -/
structure MessageRow where
  id : Option String
  conversationId : String
  role : String
  content : String

/-- The durable store: message rows, agent-session statuses keyed by replyId,
and coordinator plan rows keyed by conversationId. -/
structure DB where
  messages : List MessageRow := []
  agentSessions : List (String × String) := []
  plans : List (String × PlanRow) := []

/-- In-memory fields of the AgentManager singleton. The extra field
sseDelivered is not manager state: it logs, per reply, the messages the
registered SSE callbacks have received (the message queue of the route),
so that delivery and loss are observable in the model. -/
structure ManagerState where
  processes : List String := []
  conversationAgents : List (String × List String) := []
  pendingReplies : List (String × PendingReply) := []
  sseCallbacks : List String := []
  sseDelivered : List (String × List (Option SSEMsg)) := []
  extractedTestcaseReplies : List String := []
  hiddenToolCallIds : List String := []

/-- External dependencies of the manager. Modelled from the spec: the module
tool-display.js (getToolDisplayName, isToolHidden) is not among the sources,
only its callers are; section 4.4 of the spec describes it as a static set
Hidden of raw tool names plus a rename map. The JS builtin JSON.parse is the
third parameter; a parse failure (an exception) is the none result. -/
structure ExternalDeps where
  hiddenTools : List String
  renameTools : List (String × String)
  parseJson : String → Option Jv

/-- Modelled from the spec: is_hidden(name) iff name is in the Hidden set
(tool-display.js is not among the sources). -/
def isToolHidden (X : ExternalDeps) (name : String) : Bool :=
  X.hiddenTools.contains name

/-- Modelled from the spec: display(name) is the renaming when present,
otherwise the raw name (tool-display.js is not among the sources). -/
def getToolDisplayName (X : ExternalDeps) (name : String) : String :=
  (alistLookup X.renameTools name).getD name

end EventModel

section Regex

/-- The opening brace character, written by code point. -/
def lbrace : Char := Char.ofNat 123

/-- The closing brace character, written by code point. -/
def rbrace : Char := Char.ofNat 125

/-- Character of a list at an index, with a default blank. -/
def charAt (l : List Char) (i : Nat) : Char := l.getD i ' '

/-- Does the pattern occur at exactly position i of the list. -/
def occursAt (pat l : List Char) (i : Nat) : Bool :=
  pat.isPrefixOf (l.drop i)

/-- JS String.includes. -/
def strIncludes (s pat : String) : Bool :=
  (List.range (s.length + 1)).any (fun i => occursAt pat.data s.data i)

/-- The literal of the testcase regex between the braces: the nine-letter
word testcases surrounded by double quotes, eleven characters. -/
def tcPat : List Char := '"' :: ("testcases".data ++ ['"'])

/-- Semantics of the JS call textContent.match of the regex
brace dot-star quote testcases quote dot-star brace with the s flag
(agent-manager.ts line 565): the regex engine takes the leftmost start, an
opening brace with a quoted testcases occurrence after it followed by a
closing brace; both dot-stars are greedy, so the match runs to the last
closing brace that still follows the last such testcases occurrence.
The result is the matched substring. -/
def matchTestcasesRegex (s : String) : Option String :=
  let l := s.data
  let n := l.length
  let goodTc := (List.range n).filter (fun j =>
    occursAt tcPat l j &&
    (List.range n).any (fun k => decide (j + tcPat.length ≤ k) && charAt l k == rbrace))
  let startsOk := (List.range n).filter (fun i =>
    charAt l i == lbrace && goodTc.any (fun j => decide (i + 1 ≤ j)))
  match startsOk.head? with
  | none => none
  | some i =>
      match (goodTc.filter (fun j => decide (i + 1 ≤ j))).getLast? with
      | none => none
      | some j =>
          match ((List.range n).filter (fun k =>
              decide (j + tcPat.length ≤ k) && charAt l k == rbrace)).getLast? with
          | none => none
          | some k => some (String.mk ((l.drop i).take (k + 1 - i)))

end Regex

section Manager

/-- Result of one manager handler: the new manager state, the new durable
state, and the list of arguments passed to pushToSSEQueue (the downstream
events of the step, in order; none is the end-of-stream signal). -/
structure StepResult where
  mgr : ManagerState
  db : DB
  pushes : List (Option SSEMsg)

/-- agent-manager.ts pushToSSEQueue: invoke the registered callbacks for the
reply; with no registered callback the message goes nowhere. -/
def pushToSSEQueue (m : ManagerState) (replyId : String) (msg : Option SSEMsg) :
    ManagerState :=
  if m.sseCallbacks.contains replyId then
    { m with sseDelivered := (alistInsert m.sseDelivered replyId
        (((alistLookup m.sseDelivered replyId).getD []) ++ [msg])) }
  else m

/-- The four keyword hints of extractAndPushTestcases. -/
def testcaseKeywords : List String :=
  ["\"testcases\"", "\"interface_name\"",
   "generate_positive_cases", "generate_negative_cases"]

/-- agent-manager.ts extractAndPushTestcases, lines 557-587: a one-shot
per reply (guarded by extractedTestcaseReplies), requiring a nonempty text
of length at least 100, a keyword hit, a regex match that parses as JSON,
and a nonempty testcases array; on success the flag is set and one
testcases event is pushed. -/
def extractAndPushTestcases (X : ExternalDeps) (m : ManagerState)
    (replyId : String) (textContent : String) : ManagerState × List (Option SSEMsg) :=
  if m.extractedTestcaseReplies.contains replyId then (m, [])
  else if textContent = "" || textContent.length < 100 then (m, [])
  else if !(testcaseKeywords.any (fun kw => strIncludes textContent kw)) then (m, [])
  else
    match matchTestcasesRegex textContent with
    | none => (m, [])
    | some matched =>
        match X.parseJson matched with
        | none => (m, [])
        | some d =>
            match objLookup d "testcases" with
            | some (.arr tcs) =>
                if tcs.isEmpty then (m, [])
                else
                  let m1 := { m with extractedTestcaseReplies :=
                    (setAdd m.extractedTestcaseReplies replyId) }
                  let msg := SSEMsg.testcases
                    (jsGetOr d "status" (.str "unknown"))
                    (jsGetOr d "count" (.num tcs.length)) tcs
                  (pushToSSEQueue m1 replyId (some msg), [some msg])
            | _ => (m, [])

/-- plan.service dispatch in agent-manager.ts handleCoordinatorEvent,
lines 486-552: switch on the event type; the phase number defaults to 1
by nullish coalescing; unknown types are logged only. -/
def handleCoordinatorEvent (plans : List (String × PlanRow))
    (conversationId : String) (eventType : String) (d : CoordData) :
    List (String × PlanRow) :=
  if eventType = "plan_created" then
    let planData := d.planDoc.getD (.obj [])
    let objective :=
      match objLookup planData "objective" with
      | some (.str s) => s
      | _ => ""
    upsertPlan plans conversationId
      { objective := objective, plan := planData, status := some "running" }
  else if eventType = "phase_started" then
    updatePhaseStarted plans conversationId (d.phase.getD 1)
  else if eventType = "phase_completed" then
    updatePhaseCompleted plans conversationId (d.phase.getD 1) d.evaluation
  else if eventType = "task_completed" then
    updatePlanStatus plans conversationId "completed"
  else if eventType = "execution_failed" || eventType = "task_failed" then
    updatePlanStatus plans conversationId "failed"
  else plans

/-- One iteration of the event loop of agent-manager.ts handleAgentEvents,
lines 205-276, acting on the reply looked up from pendingReplies. -/
def processEvent (X : ExternalDeps) (m : ManagerState) (db : DB)
    (replyId : String) (e : AgentEvent) : StepResult :=
  match e with
  | .text content =>
      match alistLookup m.pendingReplies replyId with
      | none => ⟨m, db, []⟩
      | some reply =>
          let messages :=
            match reply.messages with
            | existing :: rest =>
                let accumulated := existing.accumulatedContent ++ content
                { existing with
                    accumulatedContent := accumulated
                    content := [.text accumulated] } :: rest
            | [] =>
                [{ id := none, accumulatedContent := content
                   content := [.text content], role := "assistant" }]
          let m1 := { m with pendingReplies :=
            (alistUpdate (fun r => { r with messages := messages }) m.pendingReplies replyId) }
          let m2 := pushToSSEQueue m1 replyId (some (.chunk content))
          let accumulatedText :=
            match messages.head? with
            | some ms => ms.accumulatedContent
            | none => ""
          let er := extractAndPushTestcases X m2 replyId accumulatedText
          ⟨er.1, db, [some (.chunk content)] ++ er.2⟩
  | .thinking content =>
      ⟨pushToSSEQueue m replyId (some (.thinking content)), db,
       [some (.thinking content)]⟩
  | .toolCall id name input =>
      if isToolHidden X name then
        ⟨{ m with hiddenToolCallIds := setAdd m.hiddenToolCallIds id }, db, []⟩
      else
        let msg := SSEMsg.toolCall id (getToolDisplayName X name) input
        ⟨pushToSSEQueue m replyId (some msg), db, [some msg]⟩
  | .toolResult id name output success =>
      if isToolHidden X name || m.hiddenToolCallIds.contains id then
        ⟨m, db, []⟩
      else
        let msg := SSEMsg.toolResult id (getToolDisplayName X name) output success
        ⟨pushToSSEQueue m replyId (some msg), db, [some msg]⟩
  | .coordinatorEvent eventType d =>
      let db1 :=
        match alistLookup m.pendingReplies replyId with
        | some reply =>
            { db with plans :=
              handleCoordinatorEvent db.plans reply.conversationId eventType d }
        | none => db
      let msg := SSEMsg.coordinatorEvent eventType d
      ⟨pushToSSEQueue m replyId (some msg), db1, [some msg]⟩

/-- The event loop of handleAgentEvents: fold processEvent over the batch,
concatenating the pushes. -/
def processEvents (X : ExternalDeps) (m : ManagerState) (db : DB)
    (replyId : String) : List AgentEvent → StepResult
  | [] => ⟨m, db, []⟩
  | e :: rest =>
      let r1 := processEvent X m db replyId e
      let r2 := processEvents X r1.mgr r1.db replyId rest
      ⟨r2.mgr, r2.db, r1.pushes ++ r2.pushes⟩

/-- agent-manager.ts handleAgentEvents, lines 198-277: a warn-and-return
when no pending reply exists, otherwise the event loop. -/
def handleAgentEvents (X : ExternalDeps) (m : ManagerState) (db : DB)
    (replyId : String) (events : List AgentEvent) : StepResult :=
  match alistLookup m.pendingReplies replyId with
  | none => ⟨m, db, []⟩
  | some _ => processEvents X m db replyId events

end Manager

section Lifecycle

/-- Failure of a prisma create. -/
inductive DbError where
  | uniqueViolation

/-- prisma message.create: with an explicit id the insert fails on a
duplicate; without one the database mints a fresh id and the insert
always succeeds. -/
def messageCreate (db : DB) (msgId : Option String)
    (conversationId content : String) : Except DbError DB :=
  match msgId with
  | some i =>
      if db.messages.any (fun r => r.id == some i) then
        .error .uniqueViolation
      else
        .ok { db with messages :=
          db.messages ++ [⟨some i, conversationId, "assistant", content⟩] }
  | none =>
      .ok { db with messages :=
        db.messages ++ [⟨none, conversationId, "assistant", content⟩] }

/-- The try-catch around message.create in handleAgentFinished (lines
295-308) and terminateAgent (lines 364-376): a failed insert is swallowed. -/
def tryCreateMessage (db : DB) (msgId : Option String)
    (conversationId content : String) : DB :=
  match messageCreate db msgId conversationId content with
  | .error _ => db
  | .ok db1 => db1

/-- The message flush loop shared by handleAgentFinished and terminateAgent:
persist each accumulated nonempty message. -/
def saveMessages (db : DB) (reply : PendingReply) : DB :=
  reply.messages.foldl (fun acc msg =>
    if msg.accumulatedContent = "" then acc
    else tryCreateMessage acc msg.id reply.conversationId msg.accumulatedContent) db

/-- agent-manager.ts handleAgentFinished, lines 282-344: when a pending
reply exists, set its finished flag and flush its messages; in all cases
push the end signal, mark the session COMPLETED, and kill and drop the
child process. The pending reply entry itself is kept. -/
def handleAgentFinished (m : ManagerState) (db : DB) (replyId : String) :
    StepResult :=
  let s1 : ManagerState × DB :=
    match alistLookup m.pendingReplies replyId with
    | none => (m, db)
    | some reply =>
        ({ m with pendingReplies :=
            (alistUpdate (fun r => { r with finished := true }) m.pendingReplies replyId) },
         saveMessages db reply)
  let m2 := pushToSSEQueue s1.1 replyId none
  let db2 := { s1.2 with agentSessions :=
    (alistUpdate (fun _ => "COMPLETED") s1.2.agentSessions replyId) }
  let m3 := { m2 with processes := m2.processes.erase replyId }
  ⟨m3, db2, [none]⟩

/-- Result of terminateAgent: a step result plus the returned boolean. -/
structure TermResult where
  mgr : ManagerState
  db : DB
  pushes : List (Option SSEMsg)
  found : Bool

/-- agent-manager.ts terminateAgent, lines 349-416: a missing pending reply
returns false and changes nothing; otherwise flush the messages, kill and
drop the child, set the finished and cancelled flags, push a synthetic
cancelled event and the end signal, mark the session CANCELLED, and return
true. The pending reply entry is not removed. -/
def terminateAgent (m : ManagerState) (db : DB) (replyId : String) : TermResult :=
  match alistLookup m.pendingReplies replyId with
  | none => ⟨m, db, [], false⟩
  | some reply =>
      let db1 := saveMessages db reply
      let m1 := { m with processes := m.processes.erase replyId }
      let m2 := { m1 with pendingReplies :=
        (alistUpdate (fun r => { r with finished := true, cancelled := true })
          m1.pendingReplies replyId) }
      let cancelMsg := SSEMsg.cancelled "用户终止了请求"
      let m3 := pushToSSEQueue m2 replyId (some cancelMsg)
      let m4 := pushToSSEQueue m3 replyId none
      let db2 := { db1 with agentSessions :=
        (alistUpdate (fun _ => "CANCELLED") db1.agentSessions replyId) }
      ⟨m4, db2, [some cancelMsg, none], true⟩

/-- Spawn parameters (the fields of SpawnAgentParams the bookkeeping uses). -/
structure SpawnParams where
  replyId : String
  conversationId : String
  userId : String

/-- agent-manager.ts spawnAgent, lines 34-129, bookkeeping effects:
create the pending reply, index it under its conversation, create the
session record as STARTING, record the child in the process map, and move
the session to RUNNING. The exit listener is the separate onChildExit. -/
def spawnAgent (m : ManagerState) (db : DB) (p : SpawnParams) :
    ManagerState × DB :=
  let reply : PendingReply :=
    { conversationId := p.conversationId, replyId := p.replyId
      userId := p.userId, messages := [], finished := false }
  let m1 := { m with pendingReplies := alistInsert m.pendingReplies p.replyId reply }
  let convSet := (alistLookup m1.conversationAgents p.conversationId).getD []
  let m2 := { m1 with conversationAgents :=
    (alistInsert m1.conversationAgents p.conversationId (setAdd convSet p.replyId)) }
  let db1 :=
    if (alistLookup db.agentSessions p.replyId).isSome then db
    else { db with agentSessions := db.agentSessions ++ [(p.replyId, "STARTING")] }
  let m3 := { m2 with processes := setAdd m2.processes p.replyId }
  let db2 := { db1 with agentSessions :=
    (alistUpdate (fun _ => "RUNNING") db1.agentSessions p.replyId) }
  (m3, db2)

/-- The exit listener attached in spawnAgent, lines 112-121: remove the
reply from the process map and from the conversation index, dropping the
index entry when its set becomes empty. Nothing else happens on exit. -/
def onChildExit (m : ManagerState) (replyId conversationId : String) :
    ManagerState :=
  let m1 := { m with processes := m.processes.erase replyId }
  match alistLookup m1.conversationAgents conversationId with
  | none => m1
  | some convAgents =>
      let remaining := convAgents.erase replyId
      if remaining.isEmpty then
        { m1 with conversationAgents := alistEraseKey m1.conversationAgents conversationId }
      else
        { m1 with conversationAgents :=
          (alistInsert m1.conversationAgents conversationId remaining) }

/-- agent-manager.ts registerSSECallback: ensure a callback list exists for
the reply and add the callback (one subscriber in this model). -/
def registerSSECallback (m : ManagerState) (replyId : String) : ManagerState :=
  { m with sseCallbacks := setAdd m.sseCallbacks replyId }

/-- agent-manager.ts removeSSECallbacks: drop the callback entry. -/
def removeSSECallbacks (m : ManagerState) (replyId : String) : ManagerState :=
  { m with sseCallbacks := m.sseCallbacks.erase replyId }

/-- agent-manager.ts cleanup, lines 592-617: kill every child and clear all
six manager maps and sets. The delivery log is an observation, not manager
state, so it stays. -/
def cleanup (m : ManagerState) : ManagerState :=
  { processes := [], conversationAgents := [], pendingReplies := []
    sseCallbacks := [], sseDelivered := m.sseDelivered
    extractedTestcaseReplies := [], hiddenToolCallIds := [] }

end Lifecycle

section Routes

/-- Response of the interrupt endpoint: an HTTP status and the success flag
of the JSON body. -/
structure InterruptResponse where
  httpStatus : Nat
  success : Bool

/-- chat.service.ts interruptAgent plus the route handler of POST
/api/chat/interrupt (chat.routes.ts lines 130-144): after authentication the
body is parsed and terminateAgent is called on the reply id; the response is
always HTTP 200 with the returned boolean, and the caller identity is not
compared with the owner of the reply. -/
def interruptRoute (m : ManagerState) (db : DB) (callerUserId replyId : String) :
    ManagerState × DB × InterruptResponse :=
  let _ := callerUserId
  let r := terminateAgent m db replyId
  (r.mgr, r.db, ⟨200, r.found⟩)

/-- SSE frames of the streaming response (section 6 of the spec lists the
recognized frame types; the error type appears there and in the claims). -/
inductive Frame where
  | start (conversationId replyId : String)
  | msg (m : SSEMsg)
  | heartbeat
  | done
  | error (message : String)

/-- Drain of the message loop of sendMessageStreaming (chat.service.ts lines
306-353) once the agent is no longer running: each queued message becomes a
frame; the none end signal yields the done frame and stops; an exhausted
queue with a stopped agent also yields done. -/
def framesOfQueue : List (Option SSEMsg) → List Frame
  | [] => [Frame.done]
  | none :: _ => [Frame.done]
  | some x :: rest => Frame.msg x :: framesOfQueue rest

/-- Fold handleAgentEvents over a list of inbound callback batches. -/
def runBatches (X : ExternalDeps) (m : ManagerState) (db : DB)
    (replyId : String) : List (List AgentEvent) → ManagerState × DB
  | [] => (m, db)
  | batch :: rest =>
      let r := handleAgentEvents X m db replyId batch
      runBatches X r.mgr r.db replyId rest

/-- chat.service.ts sendMessageStreaming, lines 223-368, with the agent
finishing normally: the start frame is yielded first, then the subprocess is
spawned, then (after the awaited bookkeeping of spawnAgent) the SSE callback
is registered; callback batches may arrive at any await point after the
spawn, so they are split into those handled before registration and those
after; the finished signal ends the stream and the frames are the start
frame followed by the drain of what the callback received. -/
def streamingScenarioFinished (X : ExternalDeps) (p : SpawnParams)
    (beforeRegister afterRegister : List (List AgentEvent)) :
    List Frame × ManagerState × DB :=
  let s1 := spawnAgent {} {} p
  let s2 := runBatches X s1.1 s1.2 p.replyId beforeRegister
  let m3 := registerSSECallback s2.1 p.replyId
  let s4 := runBatches X m3 s2.2 p.replyId afterRegister
  let r := handleAgentFinished s4.1 s4.2 p.replyId
  (Frame.start p.conversationId p.replyId ::
     framesOfQueue ((alistLookup r.mgr.sseDelivered p.replyId).getD []),
   r.mgr, r.db)

/-- sendMessageStreaming with the subprocess exiting without a finished
callback: after the batches the exit listener runs, the loop finds the queue
empty and the agent not running, and the drain produces the frames. -/
def streamingScenarioCrashed (X : ExternalDeps) (p : SpawnParams)
    (batches : List (List AgentEvent)) : List Frame × ManagerState × DB :=
  let s1 := spawnAgent {} {} p
  let m2 := registerSSECallback s1.1 p.replyId
  let s3 := runBatches X m2 s1.2 p.replyId batches
  let m4 := onChildExit s3.1 p.replyId p.conversationId
  (Frame.start p.conversationId p.replyId ::
     framesOfQueue ((alistLookup m4.sseDelivered p.replyId).getD []),
   m4, s3.2)

end Routes

section Observations

/-- Concatenation of a list of strings, in order. -/
def concatAll : List String → String
  | [] => ""
  | s :: rest => s ++ concatAll rest

/-- The contents of the chunk events among a list of pushes, in order. -/
def chunkContents : List (Option SSEMsg) → List String
  | [] => []
  | some (.chunk c) :: rest => c :: chunkContents rest
  | some (.thinking _) :: rest => chunkContents rest
  | some (.toolCall _ _ _) :: rest => chunkContents rest
  | some (.toolResult _ _ _ _) :: rest => chunkContents rest
  | some (.coordinatorEvent _ _) :: rest => chunkContents rest
  | some (.testcases _ _ _) :: rest => chunkContents rest
  | some (.cancelled _) :: rest => chunkContents rest
  | none :: rest => chunkContents rest

/-- Number of testcases events among a list of pushes. -/
def countTestcases : List (Option SSEMsg) → Nat
  | [] => 0
  | some (.testcases _ _ _) :: rest => countTestcases rest + 1
  | _ :: rest => countTestcases rest

/-- The accumulated text of the head message of a pending reply, the string
the finished handler would persist (empty when absent). -/
def accumulatedOf (m : ManagerState) (replyId : String) : String :=
  match alistLookup m.pendingReplies replyId with
  | some r =>
      match r.messages with
      | ms :: _ => ms.accumulatedContent
      | [] => ""
  | none => ""

end Observations

section Fixtures

/-- A deps fixture: one hidden tool, one renaming, a parse that never
succeeds (no testcase extraction in these scenarios). -/
def depsBasic : ExternalDeps :=
  ⟨["internal_ping"], [("fetch", "联网搜索")], fun _ => none⟩

/-- A JSON text of exactly 100 characters holding a nonempty testcases
array, for the extraction boundary. -/
def c8str : String :=
  "\x7b\"testcases\":[1],\"status\":\"ok\",\"count\":1,\"pad\":\"AAAAAAAAAAAAAAAAAAAAAAAAAAAAAAAAAAAAAAAAAAAAAAAAAA\"\x7d"

/-- The JSON value of c8str. -/
def c8obj : Jv :=
  .obj [("testcases", .arr [.num 1]), ("status", .str "ok"),
        ("count", .num 1),
        ("pad", .str "AAAAAAAAAAAAAAAAAAAAAAAAAAAAAAAAAAAAAAAAAAAAAAAAAA")]

/-- Deps whose parse oracle agrees with JSON.parse on c8str. -/
def deps8 : ExternalDeps :=
  ⟨["internal_ping"], [], fun s => if s = c8str then some c8obj else none⟩

/-- The testcases push produced from c8str. -/
def c8msg : Option SSEMsg := some (.testcases (.str "ok") (.num 1) [.num 1])

/-- A manager whose r1 extraction flag is already set. -/
def m8flag : ManagerState := { extractedTestcaseReplies := ["r1"] }

/-- Spawn parameters of the concrete scenarios: reply r1 of conversation c1
owned by alice. -/
def paramsW : SpawnParams := ⟨"r1", "c1", "alice"⟩

/-- A concrete plan row: objective O, active phase 1, phase 2 done. -/
def planRowW : PlanRow :=
  ⟨"O", .obj [], some 1, [2], [("phase_2", .boolean true)], "running"⟩

/-- A concrete plan table holding planRowW under conversation c1. -/
def plansW : List (String × PlanRow) := [("c1", planRowW)]

/-- The row expected after completing phase 1 of planRowW with a boolean
evaluation. -/
def planRowW1 : PlanRow :=
  ⟨"O", .obj [], none, [2, 1],
   [("phase_2", .boolean true), ("phase_1", .boolean true)], "running"⟩

/-- Manager and store after spawning r1 (the C5, C6 and C9 scenarios). -/
def spawnedW : ManagerState × DB := spawnAgent {} {} paramsW

/-- State after r1 produced the text partial (terminate scenarios). -/
def partialW : StepResult :=
  handleAgentEvents depsBasic spawnedW.1 spawnedW.2 "r1" [.text "partial"]

/-- First termination of r1. -/
def terminatedOnceW : TermResult := terminateAgent partialW.mgr partialW.db "r1"

/-- Second termination of r1, issued after the first one succeeded. -/
def terminatedTwiceW : TermResult :=
  terminateAgent terminatedOnceW.mgr terminatedOnceW.db "r1"

/-- C9 scenario, first half: r1 accumulates A and the finished handler runs. -/
def finishedW : StepResult :=
  let r1 := handleAgentEvents depsBasic spawnedW.1 spawnedW.2 "r1" [.text "A"]
  handleAgentFinished r1.mgr r1.db "r1"

/-- C9 scenario, second half: a late batch carrying the text B arrives after
the finished handler already ran. -/
def lateBatchW : StepResult :=
  handleAgentEvents depsBasic finishedW.mgr finishedW.db "r1" [.text "B"]

/-- C3 scenario: the only event batch arrives after the subprocess spawn but
before the SSE callback registration; then the agent finishes. -/
def lostEventRunW : List Frame × ManagerState × DB :=
  streamingScenarioFinished depsBasic paramsW [[.text "lost"]] []

/-- C4 scenario: one delivered text event, then the subprocess exits
without a finished callback. -/
def crashRunW : List Frame × ManagerState × DB :=
  streamingScenarioCrashed depsBasic paramsW [[.text "hi"]]

/-- Spawn parameters of a second, unrelated reply. -/
def paramsW2 : SpawnParams := ⟨"r2", "c2", "bob"⟩

/-- Manager and store with the two unrelated replies r1 and r2 spawned. -/
def spawned2W : ManagerState × DB :=
  spawnAgent spawnedW.1 spawnedW.2 paramsW2

/-- State after a hidden tool_call with id t1 arrived for r1. -/
def hiddenCallW : StepResult :=
  handleAgentEvents depsBasic spawned2W.1 spawned2W.2 "r1"
    [.toolCall "t1" "internal_ping" "x"]

end Fixtures

section AlistLemmas

theorem alistLookup_alistUpdate_self {α : Type} (f : α → α)
    (l : List (String × α)) (k : String) :
    alistLookup (alistUpdate f l k) k = (alistLookup l k).map f := by
  induction l with
  | nil => rfl
  | cons hd tl ih =>
      obtain ⟨k0, v0⟩ := hd
      by_cases h : k0 = k
      · simp [alistUpdate, alistLookup, h]
      · simp [alistUpdate, alistLookup, h, ih]

theorem alistLookup_alistUpdate_ne {α : Type} (f : α → α)
    (l : List (String × α)) (k k1 : String) (h : k1 ≠ k) :
    alistLookup (alistUpdate f l k) k1 = alistLookup l k1 := by
  induction l with
  | nil => rfl
  | cons hd tl ih =>
      obtain ⟨k0, v0⟩ := hd
      by_cases h0 : k0 = k
      · have h1 : k0 ≠ k1 := fun hh => h (hh ▸ h0)
        simp [alistUpdate, alistLookup, h0, h1, Ne.symm h]
      · by_cases h1 : k0 = k1
        · simp [alistUpdate, alistLookup, h0, h1, h]
        · simp [alistUpdate, alistLookup, h0, h1, ih]

theorem alistLookup_alistInsert_self {α : Type}
    (l : List (String × α)) (k : String) (v : α) :
    alistLookup (alistInsert l k v) k = some v := by
  induction l with
  | nil => simp [alistInsert, alistLookup]
  | cons hd tl ih =>
      obtain ⟨k0, v0⟩ := hd
      by_cases h : k0 = k
      · simp [alistInsert, alistLookup, h]
      · simp [alistInsert, alistLookup, h, ih]

theorem alistLookup_alistInsert_ne {α : Type}
    (l : List (String × α)) (k k1 : String) (v : α) (h : k1 ≠ k) :
    alistLookup (alistInsert l k v) k1 = alistLookup l k1 := by
  induction l with
  | nil =>
      simp [alistInsert, alistLookup]
      intro hh
      exact absurd hh.symm h
  | cons hd tl ih =>
      obtain ⟨k0, v0⟩ := hd
      by_cases h0 : k0 = k
      · have h1 : k0 ≠ k1 := fun hh => h (hh ▸ h0)
        simp [alistInsert, alistLookup, h0, h1, Ne.symm h]
      · by_cases h1 : k0 = k1
        · simp [alistInsert, alistLookup, h0, h1, h]
        · simp [alistInsert, alistLookup, h0, h1, ih]

theorem setAdd_contains_self (l : List String) (x : String) :
    (setAdd l x).contains x = true := by
  by_cases h : l.contains x = true
  · unfold setAdd
    rw [if_pos h]
    exact h
  · unfold setAdd
    rw [if_neg h]
    simp [List.elem_iff]

theorem setAdd_contains_of_contains (l : List String) (x y : String)
    (h : l.contains y = true) : (setAdd l x).contains y = true := by
  by_cases hx : l.contains x = true
  · unfold setAdd
    rw [if_pos hx]
    exact h
  · unfold setAdd
    rw [if_neg hx]
    simp only [List.elem_iff, List.mem_append]
    exact .inl (List.elem_iff.mp h)

end AlistLemmas

section PlanTheorems

theorem updatePhaseCompleted_step (plans : List (String × PlanRow))
    (cid : String) (phaseIndex : Int) (evaluation : Option Jv) (p : PlanRow)
    (hp : alistLookup plans cid = some p) :
    alistLookup (updatePhaseCompleted plans cid phaseIndex evaluation) cid =
      some { p with
        completedPhases :=
          if p.completedPhases.contains phaseIndex then p.completedPhases
          else p.completedPhases ++ [phaseIndex]
        phaseOutputs :=
          match evaluation with
          | some o => alistInsert p.phaseOutputs ("phase_" ++ toString phaseIndex) o
          | none => p.phaseOutputs
        activePhase :=
          if p.activePhase = some phaseIndex then none else p.activePhase } := by
  unfold updatePhaseCompleted
  rw [hp]
  simp only [alistLookup_alistUpdate_self, hp, Option.map_some']

theorem updatePhaseCompleted_extends (plans : List (String × PlanRow))
    (cid : String) (phaseIndex : Int) (evaluation : Option Jv) (p : PlanRow)
    (hp : alistLookup plans cid = some p) :
    ∃ p1, alistLookup (updatePhaseCompleted plans cid phaseIndex evaluation) cid = some p1
      ∧ p.completedPhases <+: p1.completedPhases := by
  refine ⟨_, updatePhaseCompleted_step plans cid phaseIndex evaluation p hp, ?_⟩
  by_cases hc : phaseIndex ∈ p.completedPhases
  · simp only [hc, List.elem_iff.mpr hc, if_true]
    exact List.prefix_refl _
  · have hc2 : ¬(p.completedPhases.contains phaseIndex = true) :=
      fun hh => hc (List.elem_iff.mp hh)
    simp only [if_neg hc2]
    exact List.prefix_append _ _

theorem updatePhaseCompleted_fold (cid : String) :
    ∀ (updates : List (Int × Option Jv)) (plans : List (String × PlanRow)) (p : PlanRow),
      alistLookup plans cid = some p →
      ∃ q, alistLookup (updates.foldl
              (fun pl u => updatePhaseCompleted pl cid u.1 u.2) plans) cid = some q
        ∧ p.completedPhases <+: q.completedPhases := by
  intro updates
  induction updates with
  | nil => exact fun plans p hp => ⟨p, hp, List.prefix_refl _⟩
  | cons u rest ih =>
      intro plans p hp
      obtain ⟨p1, hp1, hpre1⟩ :=
        updatePhaseCompleted_extends plans cid u.1 u.2 p hp
      obtain ⟨q, hq, hpre2⟩ := ih _ p1 hp1
      exact ⟨q, by simpa using hq, hpre1.trans hpre2⟩

/-- C7: for every phase_completed coordinator event with phase p, the
projector appends p to completed_phases iff p is not already present
(never removing an element, so completed_phases grows monotonically as a
prefix across projector invocations), stores the evaluation, when present,
under the key phase_p in phase_outputs while preserving every other key,
and sets active_phase to null iff the current active_phase equals p. -/
theorem c7_phase_completed_projection
    (plans : List (String × PlanRow)) (cid : String) (phaseIndex : Int)
    (evaluation : Option Jv) (p : PlanRow)
    (hp : alistLookup plans cid = some p) :
    ∃ p1, alistLookup (updatePhaseCompleted plans cid phaseIndex evaluation) cid = some p1
      ∧ p1.completedPhases =
          (if p.completedPhases.contains phaseIndex then p.completedPhases
           else p.completedPhases ++ [phaseIndex])
      ∧ p.completedPhases <+: p1.completedPhases
      ∧ (∀ e, evaluation = some e →
            alistLookup p1.phaseOutputs ("phase_" ++ toString phaseIndex) = some e
          ∧ ∀ k, k ≠ "phase_" ++ toString phaseIndex →
              alistLookup p1.phaseOutputs k = alistLookup p.phaseOutputs k)
      ∧ (evaluation = none → p1.phaseOutputs = p.phaseOutputs)
      ∧ p1.activePhase =
          (if p.activePhase = some phaseIndex then none else p.activePhase)
      ∧ (∀ (updates : List (Int × Option Jv)), ∃ q,
            alistLookup (updates.foldl
              (fun pl u => updatePhaseCompleted pl cid u.1 u.2)
              (updatePhaseCompleted plans cid phaseIndex evaluation)) cid = some q
          ∧ p.completedPhases <+: q.completedPhases) := by
  refine ⟨_, updatePhaseCompleted_step plans cid phaseIndex evaluation p hp,
    rfl, ?_, ?_, ?_, rfl, ?_⟩
  · by_cases hc : phaseIndex ∈ p.completedPhases
    · simp only [List.elem_iff.mpr hc, if_true]
      exact List.prefix_refl _
    · have hc2 : ¬(p.completedPhases.contains phaseIndex = true) :=
        fun hh => hc (List.elem_iff.mp hh)
      simp only [if_neg hc2]
      exact List.prefix_append _ _
  · intro e he
    subst he
    exact ⟨alistLookup_alistInsert_self _ _ _,
      fun k hk => alistLookup_alistInsert_ne _ _ _ _ hk⟩
  · intro he
    subst he
    rfl
  · intro updates
    obtain ⟨p1, hp1, hpre1⟩ :=
      updatePhaseCompleted_extends plans cid phaseIndex evaluation p hp
    obtain ⟨q, hq, hpre2⟩ := updatePhaseCompleted_fold cid updates _ p1 hp1
    exact ⟨q, hq, hpre1.trans hpre2⟩

/-- Witness for C7 at a concrete plan table: completing phase 1 of planRowW
with a boolean evaluation yields planRowW1 and extends completed_phases. -/
theorem c7_phase_completed_projection_witness :
    alistLookup (updatePhaseCompleted plansW "c1" 1 (some (.boolean true))) "c1"
      = some planRowW1
    ∧ planRowW.completedPhases <+: planRowW1.completedPhases := by
  obtain ⟨p1, h1, -, h3, -, -, -, -⟩ :=
    c7_phase_completed_projection plansW "c1" 1 (some (.boolean true)) planRowW rfl
  have e1 : alistLookup (updatePhaseCompleted plansW "c1" 1 (some (.boolean true))) "c1"
      = some planRowW1 := rfl
  have hp1 : p1 = planRowW1 := by
    rw [e1] at h1
    exact (Option.some.inj h1).symm
  exact ⟨e1, hp1 ▸ h3⟩

end PlanTheorems

section Preservation

theorem pushToSSEQueue_pendingReplies (m : ManagerState) (rid : String)
    (msg : Option SSEMsg) : (pushToSSEQueue m rid msg).pendingReplies = m.pendingReplies := by
  unfold pushToSSEQueue
  split <;> rfl

theorem pushToSSEQueue_hiddenToolCallIds (m : ManagerState) (rid : String)
    (msg : Option SSEMsg) :
    (pushToSSEQueue m rid msg).hiddenToolCallIds = m.hiddenToolCallIds := by
  unfold pushToSSEQueue
  split <;> rfl

theorem pushToSSEQueue_sseCallbacks (m : ManagerState) (rid : String)
    (msg : Option SSEMsg) : (pushToSSEQueue m rid msg).sseCallbacks = m.sseCallbacks := by
  unfold pushToSSEQueue
  split <;> rfl

theorem pushToSSEQueue_extracted (m : ManagerState) (rid : String)
    (msg : Option SSEMsg) :
    (pushToSSEQueue m rid msg).extractedTestcaseReplies = m.extractedTestcaseReplies := by
  unfold pushToSSEQueue
  split <;> rfl

theorem pushToSSEQueue_not_subscribed (m : ManagerState) (rid : String)
    (msg : Option SSEMsg) (h : m.sseCallbacks.contains rid = false) :
    pushToSSEQueue m rid msg = m := by
  unfold pushToSSEQueue
  rw [if_neg (by rw [h]; simp)]

theorem pushToSSEQueue_sseDelivered_not (m : ManagerState) (rid : String)
    (msg : Option SSEMsg) (h : m.sseCallbacks.contains rid = false) :
    (pushToSSEQueue m rid msg).sseDelivered = m.sseDelivered := by
  rw [pushToSSEQueue_not_subscribed _ _ _ h]

theorem extract_pendingReplies (X : ExternalDeps) (m : ManagerState)
    (rid t : String) :
    (extractAndPushTestcases X m rid t).1.pendingReplies = m.pendingReplies := by
  unfold extractAndPushTestcases
  repeat' split
  all_goals simp [pushToSSEQueue_pendingReplies]

theorem extract_hiddenToolCallIds (X : ExternalDeps) (m : ManagerState)
    (rid t : String) :
    (extractAndPushTestcases X m rid t).1.hiddenToolCallIds = m.hiddenToolCallIds := by
  unfold extractAndPushTestcases
  repeat' split
  all_goals simp [pushToSSEQueue_hiddenToolCallIds]

theorem extract_sseCallbacks (X : ExternalDeps) (m : ManagerState)
    (rid t : String) :
    (extractAndPushTestcases X m rid t).1.sseCallbacks = m.sseCallbacks := by
  unfold extractAndPushTestcases
  repeat' split
  all_goals simp [pushToSSEQueue_sseCallbacks]

theorem extract_noDeliver (X : ExternalDeps) (m : ManagerState) (rid t : String)
    (h : m.sseCallbacks.contains rid = false) :
    (extractAndPushTestcases X m rid t).1.sseDelivered = m.sseDelivered := by
  unfold extractAndPushTestcases
  repeat' split
  all_goals first
    | rfl
    | exact pushToSSEQueue_sseDelivered_not _ _ _ h

theorem extract_flag_stop (X : ExternalDeps) (m : ManagerState) (rid t : String)
    (h : m.extractedTestcaseReplies.contains rid = true) :
    extractAndPushTestcases X m rid t = (m, []) := by
  unfold extractAndPushTestcases
  rw [if_pos h]

theorem extract_extracted_monotone (X : ExternalDeps) (m : ManagerState)
    (rid t rid1 : String) (h : m.extractedTestcaseReplies.contains rid1 = true) :
    (extractAndPushTestcases X m rid t).1.extractedTestcaseReplies.contains rid1 = true := by
  unfold extractAndPushTestcases
  repeat' split
  all_goals first
    | exact h
    | (rw [pushToSSEQueue_extracted]
       exact setAdd_contains_of_contains _ _ _ h)

theorem extract_pushes_cases (X : ExternalDeps) (m : ManagerState)
    (rid t : String) :
    (extractAndPushTestcases X m rid t).2 = []
    ∨ (countTestcases (extractAndPushTestcases X m rid t).2 = 1
       ∧ (extractAndPushTestcases X m rid t).1.extractedTestcaseReplies.contains rid = true) := by
  unfold extractAndPushTestcases
  repeat' split
  all_goals first
    | exact Or.inl rfl
    | exact Or.inr ⟨rfl, by
        rw [pushToSSEQueue_extracted]
        exact setAdd_contains_self _ _⟩

theorem processEvent_sseCallbacks (X : ExternalDeps) (m : ManagerState)
    (db : DB) (rid : String) (e : AgentEvent) :
    (processEvent X m db rid e).mgr.sseCallbacks = m.sseCallbacks := by
  cases e with
  | text c =>
      simp only [processEvent]
      cases hl : alistLookup m.pendingReplies rid with
      | none => simp only [hl]
      | some reply =>
          simp only [hl]
          rw [extract_sseCallbacks, pushToSSEQueue_sseCallbacks]
  | thinking c =>
      simp only [processEvent]
      exact pushToSSEQueue_sseCallbacks _ _ _
  | toolCall id name input =>
      simp only [processEvent]
      split
      · rfl
      · exact pushToSSEQueue_sseCallbacks _ _ _
  | toolResult id name output success =>
      simp only [processEvent]
      split
      · rfl
      · exact pushToSSEQueue_sseCallbacks _ _ _
  | coordinatorEvent ty d =>
      simp only [processEvent]
      exact pushToSSEQueue_sseCallbacks _ _ _

theorem processEvent_noDeliver (X : ExternalDeps) (m : ManagerState)
    (db : DB) (rid : String) (e : AgentEvent)
    (h : m.sseCallbacks.contains rid = false) :
    (processEvent X m db rid e).mgr.sseDelivered = m.sseDelivered := by
  cases e with
  | text c =>
      simp only [processEvent]
      cases hl : alistLookup m.pendingReplies rid with
      | none => simp only [hl]
      | some reply =>
          simp only [hl]
          rw [extract_noDeliver]
          · exact pushToSSEQueue_sseDelivered_not _ _ _ h
          · rw [pushToSSEQueue_sseCallbacks]
            exact h
  | thinking c =>
      simp only [processEvent]
      exact pushToSSEQueue_sseDelivered_not _ _ _ h
  | toolCall id name input =>
      simp only [processEvent]
      split
      · rfl
      · exact pushToSSEQueue_sseDelivered_not _ _ _ h
  | toolResult id name output success =>
      simp only [processEvent]
      split
      · rfl
      · exact pushToSSEQueue_sseDelivered_not _ _ _ h
  | coordinatorEvent ty d =>
      simp only [processEvent]
      exact pushToSSEQueue_sseDelivered_not _ _ _ h

theorem processEvent_db_sessions (X : ExternalDeps) (m : ManagerState)
    (db : DB) (rid : String) (e : AgentEvent) :
    (processEvent X m db rid e).db.agentSessions = db.agentSessions := by
  cases e with
  | text c =>
      simp only [processEvent]
      cases hl : alistLookup m.pendingReplies rid with
      | none => simp only [hl]
      | some reply => simp only [hl]
  | thinking c => rfl
  | toolCall id name input =>
      simp only [processEvent]
      split
      · rfl
      · rfl
  | toolResult id name output success =>
      simp only [processEvent]
      split
      · rfl
      · rfl
  | coordinatorEvent ty d =>
      simp only [processEvent]
      cases hl : alistLookup m.pendingReplies rid with
      | none => simp only [hl]
      | some reply => simp only [hl]

theorem processEvent_db_messages (X : ExternalDeps) (m : ManagerState)
    (db : DB) (rid : String) (e : AgentEvent) :
    (processEvent X m db rid e).db.messages = db.messages := by
  cases e with
  | text c =>
      simp only [processEvent]
      cases hl : alistLookup m.pendingReplies rid with
      | none => simp only [hl]
      | some reply => simp only [hl]
  | thinking c => rfl
  | toolCall id name input =>
      simp only [processEvent]
      split
      · rfl
      · rfl
  | toolResult id name output success =>
      simp only [processEvent]
      split
      · rfl
      · rfl
  | coordinatorEvent ty d =>
      simp only [processEvent]
      cases hl : alistLookup m.pendingReplies rid with
      | none => simp only [hl]
      | some reply => simp only [hl]

theorem processEvents_sseCallbacks (X : ExternalDeps) :
    ∀ (events : List AgentEvent) (m : ManagerState) (db : DB) (rid : String),
    (processEvents X m db rid events).mgr.sseCallbacks = m.sseCallbacks := by
  intro events
  induction events with
  | nil => intro m db rid; rfl
  | cons e rest ih =>
      intro m db rid
      show (processEvents X _ _ rid rest).mgr.sseCallbacks = _
      rw [ih, processEvent_sseCallbacks]

theorem processEvents_noDeliver (X : ExternalDeps) :
    ∀ (events : List AgentEvent) (m : ManagerState) (db : DB) (rid : String),
    m.sseCallbacks.contains rid = false →
    (processEvents X m db rid events).mgr.sseDelivered = m.sseDelivered := by
  intro events
  induction events with
  | nil => intro m db rid _; rfl
  | cons e rest ih =>
      intro m db rid h
      show (processEvents X _ _ rid rest).mgr.sseDelivered = _
      rw [ih _ _ _ (by rw [processEvent_sseCallbacks]; exact h),
        processEvent_noDeliver _ _ _ _ _ h]

theorem processEvents_db_sessions (X : ExternalDeps) :
    ∀ (events : List AgentEvent) (m : ManagerState) (db : DB) (rid : String),
    (processEvents X m db rid events).db.agentSessions = db.agentSessions := by
  intro events
  induction events with
  | nil => intro m db rid; rfl
  | cons e rest ih =>
      intro m db rid
      show (processEvents X _ _ rid rest).db.agentSessions = _
      rw [ih, processEvent_db_sessions]

end Preservation

section C1Theorems

theorem processEvents_append (X : ExternalDeps) (es1 es2 : List AgentEvent) :
    ∀ (m : ManagerState) (db : DB) (rid : String),
    processEvents X m db rid (es1 ++ es2) =
      ⟨(processEvents X (processEvents X m db rid es1).mgr
          (processEvents X m db rid es1).db rid es2).mgr,
       (processEvents X (processEvents X m db rid es1).mgr
          (processEvents X m db rid es1).db rid es2).db,
       (processEvents X m db rid es1).pushes ++
       (processEvents X (processEvents X m db rid es1).mgr
          (processEvents X m db rid es1).db rid es2).pushes⟩ := by
  induction es1 with
  | nil => intro m db rid; rfl
  | cons e rest ih =>
      intro m db rid
      simp only [List.cons_append, processEvents, List.append_eq]
      rw [ih]
      simp only [List.append_assoc]

/-- C1: within a batch processed for a reply, a tool_call whose raw name is
hidden records its id in the hidden-tool id set and produces no downstream
event; a tool_result is dropped iff its name is hidden or its id is in that
set at that point; every other tool_call and tool_result is emitted with the
display name substituted; and batch processing is exactly the sequential
composition of these steps. -/
theorem c1_hidden_tool_filtering (X : ExternalDeps) (m : ManagerState)
    (db : DB) (rid : String) (es : List AgentEvent) :
    (∀ id name input, isToolHidden X name = true →
        (processEvent X (processEvents X m db rid es).mgr
            (processEvents X m db rid es).db rid (.toolCall id name input)).pushes = []
      ∧ (processEvent X (processEvents X m db rid es).mgr
            (processEvents X m db rid es).db rid
            (.toolCall id name input)).mgr.hiddenToolCallIds.contains id = true)
    ∧ (∀ id name input, isToolHidden X name = false →
        (processEvent X (processEvents X m db rid es).mgr
            (processEvents X m db rid es).db rid (.toolCall id name input)).pushes
          = [some (.toolCall id (getToolDisplayName X name) input)])
    ∧ (∀ id name output success,
        (processEvent X (processEvents X m db rid es).mgr
            (processEvents X m db rid es).db rid (.toolResult id name output success)).pushes
          = (if isToolHidden X name
                || (processEvents X m db rid es).mgr.hiddenToolCallIds.contains id
             then []
             else [some (.toolResult id (getToolDisplayName X name) output success)]))
    ∧ (∀ e, (processEvents X m db rid (es ++ [e])).pushes
          = (processEvents X m db rid es).pushes ++
            (processEvent X (processEvents X m db rid es).mgr
              (processEvents X m db rid es).db rid e).pushes) := by
  refine ⟨?_, ?_, ?_, ?_⟩
  · intro id name input h
    constructor
    · simp [processEvent, h]
    · simp only [processEvent, h, if_true]
      exact setAdd_contains_self _ _
  · intro id name input h
    simp [processEvent, h]
  · intro id name output success
    by_cases h : (isToolHidden X name
        || (processEvents X m db rid es).mgr.hiddenToolCallIds.contains id) = true
    · simp only [processEvent, if_pos h]
    · simp only [processEvent, if_neg h]
  · intro e
    rw [processEvents_append]
    show _ ++ (processEvents X _ _ _ [e]).pushes = _
    simp only [processEvents]
    rw [List.append_nil]

/-- Witness for C1: a concrete hidden tool_call is dropped and tracked, a
visible one is renamed, and the paired result of the hidden call is dropped. -/
theorem c1_hidden_tool_filtering_witness :
    (isToolHidden depsBasic "internal_ping" = true
      ∧ (processEvent depsBasic
          (processEvents depsBasic spawnedW.1 spawnedW.2 "r1" []).mgr
          (processEvents depsBasic spawnedW.1 spawnedW.2 "r1" []).db "r1"
          (.toolCall "t1" "internal_ping" "x")).pushes = [])
    ∧ (isToolHidden depsBasic "fetch" = false
      ∧ (processEvent depsBasic
          (processEvents depsBasic spawnedW.1 spawnedW.2 "r1" []).mgr
          (processEvents depsBasic spawnedW.1 spawnedW.2 "r1" []).db "r1"
          (.toolCall "t2" "fetch" "x")).pushes
        = [some (.toolCall "t2" "联网搜索" "x")]) := by
  have h := c1_hidden_tool_filtering depsBasic spawnedW.1 spawnedW.2 "r1" []
  refine ⟨⟨rfl, (h.1 "t1" "internal_ping" "x" rfl).1⟩, ⟨rfl, ?_⟩⟩
  have h2 := h.2.1 "t2" "fetch" "x" rfl
  rw [h2]
  rfl

end C1Theorems

section C10Theorems

theorem handleAgentFinished_hiddenToolCallIds (m : ManagerState) (db : DB)
    (rid : String) :
    (handleAgentFinished m db rid).mgr.hiddenToolCallIds = m.hiddenToolCallIds := by
  unfold handleAgentFinished
  cases hl : alistLookup m.pendingReplies rid with
  | none =>
      simp only [hl]
      rw [pushToSSEQueue_hiddenToolCallIds]
  | some reply =>
      simp only [hl]
      rw [pushToSSEQueue_hiddenToolCallIds]

theorem terminateAgent_hiddenToolCallIds (m : ManagerState) (db : DB)
    (rid : String) :
    (terminateAgent m db rid).mgr.hiddenToolCallIds = m.hiddenToolCallIds := by
  unfold terminateAgent
  cases hl : alistLookup m.pendingReplies rid with
  | none => simp only [hl]
  | some reply =>
      simp only [hl]
      rw [pushToSSEQueue_hiddenToolCallIds, pushToSSEQueue_hiddenToolCallIds]

/-- C10: the hidden tool-call id set is one process-wide set: a hidden
tool_call in reply r1 records id X there, a later tool_result carrying id X
in a different reply r2 is dropped, finishing or terminating a reply leaves
the set untouched, and only cleanup empties it. -/
theorem c10_shared_hidden_id_set (X : ExternalDeps) (m : ManagerState)
    (db : DB) (r1 r2 id n inp n1 o : String) (s : Bool)
    (h1 : (alistLookup m.pendingReplies r1).isSome = true)
    (h2 : (alistLookup (handleAgentEvents X m db r1
        [.toolCall id n inp]).mgr.pendingReplies r2).isSome = true)
    (hn : isToolHidden X n = true) :
    (handleAgentEvents X m db r1 [.toolCall id n inp]).mgr.hiddenToolCallIds.contains id = true
    ∧ (handleAgentEvents X (handleAgentEvents X m db r1 [.toolCall id n inp]).mgr
        (handleAgentEvents X m db r1 [.toolCall id n inp]).db r2
        [.toolResult id n1 o s]).pushes = []
    ∧ (∀ (m0 : ManagerState) (db0 : DB) (rid0 : String),
        (handleAgentFinished m0 db0 rid0).mgr.hiddenToolCallIds = m0.hiddenToolCallIds)
    ∧ (∀ (m0 : ManagerState) (db0 : DB) (rid0 : String),
        (terminateAgent m0 db0 rid0).mgr.hiddenToolCallIds = m0.hiddenToolCallIds)
    ∧ (∀ (m0 : ManagerState), (cleanup m0).hiddenToolCallIds = []) := by
  obtain ⟨reply1, hr1⟩ := Option.isSome_iff_exists.mp h1
  have hmain : (handleAgentEvents X m db r1 [.toolCall id n inp]).mgr.hiddenToolCallIds.contains id = true := by
    simp only [handleAgentEvents, hr1, processEvents, processEvent, hn, if_true]
    exact setAdd_contains_self _ _
  refine ⟨hmain, ?_, handleAgentFinished_hiddenToolCallIds,
    terminateAgent_hiddenToolCallIds, fun _ => rfl⟩
  have hdrop : ∀ (M1 : StepResult), M1.mgr.hiddenToolCallIds.contains id = true →
      (alistLookup M1.mgr.pendingReplies r2).isSome = true →
      (handleAgentEvents X M1.mgr M1.db r2 [.toolResult id n1 o s]).pushes = [] := by
    intro M1 hc hs
    obtain ⟨reply2, hr2⟩ := Option.isSome_iff_exists.mp hs
    simp only [handleAgentEvents, hr2, processEvents, processEvent]
    rw [if_pos (by rw [hc, Bool.or_true]), List.append_nil]
  exact hdrop _ hmain h2

/-- Witness for C10: hidden tool_call t1 in r1 makes the tool_result t1 in
the unrelated reply r2 vanish. -/
theorem c10_shared_hidden_id_set_witness :
    hiddenCallW.mgr.hiddenToolCallIds.contains "t1" = true
    ∧ (handleAgentEvents depsBasic hiddenCallW.mgr hiddenCallW.db "r2"
        [.toolResult "t1" "fetch" "ok" true]).pushes = [] := by
  have h := c10_shared_hidden_id_set depsBasic spawned2W.1 spawned2W.2
    "r1" "r2" "t1" "internal_ping" "x" "fetch" "ok" true rfl rfl rfl
  exact ⟨h.1, h.2.1⟩

end C10Theorems

section C2Theorems

theorem chunkContents_append (a b : List (Option SSEMsg)) :
    chunkContents (a ++ b) = chunkContents a ++ chunkContents b := by
  induction a with
  | nil => rfl
  | cons x rest ih =>
      cases x with
      | none => simpa [chunkContents] using ih
      | some msg => cases msg <;> simpa [chunkContents] using ih

theorem extract_chunkContents (X : ExternalDeps) (m : ManagerState)
    (rid t : String) :
    chunkContents (extractAndPushTestcases X m rid t).2 = [] := by
  unfold extractAndPushTestcases
  repeat' split
  all_goals rfl

theorem processEvent_text_facts (X : ExternalDeps) (m : ManagerState) (db : DB)
    (rid c : String) (reply : PendingReply) (msg0 : PendingMsg)
    (rest : List PendingMsg)
    (hp : alistLookup m.pendingReplies rid = some reply)
    (hm : reply.messages = msg0 :: rest) :
    alistLookup (processEvent X m db rid (.text c)).mgr.pendingReplies rid
      = some { reply with messages :=
          ({ msg0 with
              accumulatedContent := msg0.accumulatedContent ++ c
              content := [.text (msg0.accumulatedContent ++ c)] } : PendingMsg) :: rest }
    ∧ chunkContents (processEvent X m db rid (.text c)).pushes = [c]
    ∧ (processEvent X m db rid (.text c)).db = db := by
  refine ⟨?_, ?_, ?_⟩
  · simp only [processEvent, hp, hm]
    rw [extract_pendingReplies, pushToSSEQueue_pendingReplies,
      alistLookup_alistUpdate_self, hp]
    rfl
  · simp only [processEvent, hp, hm, List.singleton_append, chunkContents]
    rw [extract_chunkContents]
  · simp only [processEvent, hp]

theorem processEvent_text_first (X : ExternalDeps) (m : ManagerState) (db : DB)
    (rid c : String) (reply : PendingReply)
    (hp : alistLookup m.pendingReplies rid = some reply)
    (hm : reply.messages = []) :
    alistLookup (processEvent X m db rid (.text c)).mgr.pendingReplies rid
      = some { reply with messages :=
          [({ id := none, accumulatedContent := c
              content := [.text c], role := "assistant" } : PendingMsg)] }
    ∧ chunkContents (processEvent X m db rid (.text c)).pushes = [c]
    ∧ (processEvent X m db rid (.text c)).db = db := by
  refine ⟨?_, ?_, ?_⟩
  · simp only [processEvent, hp, hm]
    rw [extract_pendingReplies, pushToSSEQueue_pendingReplies,
      alistLookup_alistUpdate_self, hp]
    rfl
  · simp only [processEvent, hp, hm, List.singleton_append, chunkContents]
    rw [extract_chunkContents]
  · simp only [processEvent, hp]

theorem processEvents_text_go (X : ExternalDeps) (contents : List String) :
    ∀ (m : ManagerState) (db : DB) (rid : String) (reply : PendingReply)
      (msg0 : PendingMsg) (rest : List PendingMsg),
    alistLookup m.pendingReplies rid = some reply →
    reply.messages = msg0 :: rest →
    (∃ reply1 msg1,
        alistLookup (processEvents X m db rid (contents.map .text)).mgr.pendingReplies rid
          = some reply1
      ∧ reply1.conversationId = reply.conversationId
      ∧ reply1.messages = msg1 :: rest
      ∧ msg1.accumulatedContent = msg0.accumulatedContent ++ concatAll contents
      ∧ msg1.id = msg0.id)
    ∧ chunkContents (processEvents X m db rid (contents.map .text)).pushes = contents
    ∧ (processEvents X m db rid (contents.map .text)).db = db := by
  induction contents with
  | nil =>
      intro m db rid reply msg0 rest hp hm
      exact ⟨⟨reply, msg0, hp, rfl, hm, (String.append_empty _).symm, rfl⟩, rfl, rfl⟩
  | cons c cs ih =>
      intro m db rid reply msg0 rest hp hm
      obtain ⟨hstep1, hstep2, hstep3⟩ :=
        processEvent_text_facts X m db rid c reply msg0 rest hp hm
      obtain ⟨⟨reply1, msg1, hr1, hcid, hmsg, hacc, hid⟩, hchunks, hdb⟩ :=
        ih (processEvent X m db rid (.text c)).mgr (processEvent X m db rid (.text c)).db
          rid _ _ rest hstep1 rfl
      refine ⟨⟨reply1, msg1, ?_, ?_, hmsg, ?_, hid⟩, ?_, ?_⟩
      · simpa only [List.map_cons, processEvents] using hr1
      · rw [hcid]
      · rw [hacc]
        show _ = _ ++ concatAll (c :: cs)
        simp only [concatAll]
        rw [String.append_assoc]
      · show chunkContents ((processEvent X m db rid (.text c)).pushes ++ _) = c :: cs
        rw [chunkContents_append, hstep2, hchunks]
        rfl
      · show (processEvents X _ _ rid (cs.map .text)).db = db
        rw [hdb, hstep3]

theorem handleAgentFinished_persists (m : ManagerState) (db : DB) (rid : String)
    (reply1 : PendingReply) (msg1 : PendingMsg)
    (hp : alistLookup m.pendingReplies rid = some reply1)
    (hm : reply1.messages = [msg1])
    (hid : msg1.id = none)
    (hacc : ¬ msg1.accumulatedContent = "") :
    (handleAgentFinished m db rid).db.messages
      = db.messages ++ [⟨none, reply1.conversationId, "assistant",
          msg1.accumulatedContent⟩] := by
  unfold handleAgentFinished
  simp only [hp]
  show (saveMessages db reply1).messages = _
  unfold saveMessages
  rw [hm]
  simp only [List.foldl]
  rw [if_neg hacc, hid]
  rfl

/-- C2: text events append their content in arrival order, each emitting a
chunk carrying only its own delta; on the finished signal the concatenation
is persisted as one assistant message appended to the store; and an insert
hitting a duplicate id is swallowed, leaving the store unchanged instead of
raising. -/
theorem c2_text_delta_and_flush (X : ExternalDeps) (m : ManagerState) (db : DB)
    (rid : String) (reply : PendingReply) (contents : List String)
    (hp : alistLookup m.pendingReplies rid = some reply)
    (hm : reply.messages = []) :
    chunkContents (processEvents X m db rid (contents.map .text)).pushes = contents
    ∧ accumulatedOf (processEvents X m db rid (contents.map .text)).mgr rid
        = concatAll contents
    ∧ (¬ concatAll contents = "" →
        (handleAgentFinished (processEvents X m db rid (contents.map .text)).mgr
          (processEvents X m db rid (contents.map .text)).db rid).db.messages
        = db.messages ++ [⟨none, reply.conversationId, "assistant", concatAll contents⟩])
    ∧ (∀ (db0 : DB) (i cid content : String),
        db0.messages.any (fun r => r.id == some i) = true →
          tryCreateMessage db0 (some i) cid content = db0
        ∧ messageCreate db0 (some i) cid content = .error .uniqueViolation) := by
  have hdup : ∀ (db0 : DB) (i cid content : String),
      db0.messages.any (fun r => r.id == some i) = true →
        tryCreateMessage db0 (some i) cid content = db0
      ∧ messageCreate db0 (some i) cid content = .error .uniqueViolation := by
    intro db0 i cid content h
    have e1 : messageCreate db0 (some i) cid content
        = Except.error DbError.uniqueViolation := by
      show (if (db0.messages.any fun r => r.id == some i) = true
            then (Except.error DbError.uniqueViolation : Except DbError DB)
            else Except.ok { db0 with messages :=
              db0.messages ++ [⟨some i, cid, "assistant", content⟩] })
          = Except.error DbError.uniqueViolation
      rw [if_pos h]
    refine ⟨?_, e1⟩
    unfold tryCreateMessage
    rw [e1]
  cases contents with
  | nil =>
      refine ⟨rfl, ?_, fun h => absurd rfl h, hdup⟩
      show accumulatedOf m rid = ""
      simp only [accumulatedOf, hp, hm]
  | cons c cs =>
      obtain ⟨hstep1, hstep2, hstep3⟩ :=
        processEvent_text_first X m db rid c reply hp hm
      obtain ⟨⟨reply1, msg1, hr1, hcid, hmsg, hacc, hid⟩, hchunks, hdb⟩ :=
        processEvents_text_go X cs (processEvent X m db rid (.text c)).mgr
          (processEvent X m db rid (.text c)).db rid _ _ [] hstep1 rfl
      have hr1f : alistLookup (processEvents X m db rid
          ((c :: cs).map .text)).mgr.pendingReplies rid = some reply1 := by
        simpa only [List.map_cons, processEvents] using hr1
      have haccf : msg1.accumulatedContent = concatAll (c :: cs) := by
        rw [hacc]
        rfl
      refine ⟨?_, ?_, ?_, hdup⟩
      · show chunkContents ((processEvent X m db rid (.text c)).pushes ++ _) = c :: cs
        rw [chunkContents_append, hstep2, hchunks]
        rfl
      · simp only [accumulatedOf, hr1f, hmsg]
        exact haccf
      · intro hne
        have hdbf : (processEvents X m db rid ((c :: cs).map .text)).db = db := by
          show (processEvents X _ _ rid (cs.map .text)).db = db
          rw [hdb, hstep3]
        have hper := handleAgentFinished_persists
          (processEvents X m db rid ((c :: cs).map .text)).mgr
          (processEvents X m db rid ((c :: cs).map .text)).db rid reply1 msg1
          hr1f hmsg hid (by rw [haccf]; exact hne)
        rw [hper, hdbf, hcid, haccf]

/-- Witness for C2: the two-chunk happy path of the spec, persisting the
string Hello world. -/
theorem c2_text_delta_and_flush_witness :
    chunkContents (processEvents depsBasic spawnedW.1 spawnedW.2 "r1"
        (["Hello", " world"].map .text)).pushes = ["Hello", " world"]
    ∧ accumulatedOf (processEvents depsBasic spawnedW.1 spawnedW.2 "r1"
        (["Hello", " world"].map .text)).mgr "r1" = "Hello world"
    ∧ (handleAgentFinished (processEvents depsBasic spawnedW.1 spawnedW.2 "r1"
        (["Hello", " world"].map .text)).mgr
        (processEvents depsBasic spawnedW.1 spawnedW.2 "r1"
        (["Hello", " world"].map .text)).db "r1").db.messages
      = spawnedW.2.messages ++ [⟨none, "c1", "assistant", "Hello world"⟩] := by
  have h := c2_text_delta_and_flush depsBasic spawnedW.1 spawnedW.2 "r1"
    { conversationId := "c1", replyId := "r1", userId := "alice"
      messages := [], finished := false }
    ["Hello", " world"] rfl rfl
  refine ⟨h.1, ?_, ?_⟩
  · rw [h.2.1]
    rfl
  · rw [h.2.2.1 (by decide)]
    rfl

end C2Theorems

section C9Theorems

/-- Counterexample to C9 as stated: the reply r1 is finished (terminal),
yet a later text batch changes the stored transcript from A to AB. -/
theorem c9_counterexample_late_append :
    ((alistLookup finishedW.mgr.pendingReplies "r1").map
        (fun r => r.finished)) = some true
    ∧ accumulatedOf finishedW.mgr "r1" = "A"
    ∧ accumulatedOf lateBatchW.mgr "r1" = "AB"
    ∧ ¬ accumulatedOf lateBatchW.mgr "r1" = accumulatedOf finishedW.mgr "r1" := by
  refine ⟨rfl, rfl, rfl, ?_⟩
  have h1 : accumulatedOf lateBatchW.mgr "r1" = "AB" := rfl
  have h2 : accumulatedOf finishedW.mgr "r1" = "A" := rfl
  rw [h1, h2]
  decide

/-- C9 amended: handleAgentEvents never consults the finished or cancelled
flags; as long as the pending reply entry exists (it is removed only by
cleanup), a text event delivered after the finished or terminate handler
still appends its content to the accumulated text. -/
theorem c9_terminal_not_absorbing (X : ExternalDeps) (m : ManagerState)
    (db : DB) (rid c : String) (reply : PendingReply)
    (hp : alistLookup m.pendingReplies rid = some reply)
    (_hfin : reply.finished = true) :
    accumulatedOf (handleAgentEvents X m db rid [.text c]).mgr rid
      = accumulatedOf m rid ++ c := by
  simp only [handleAgentEvents, hp]
  cases hmsgs : reply.messages with
  | nil =>
      obtain ⟨h1, -, -⟩ := processEvent_text_first X m db rid c reply hp hmsgs
      show accumulatedOf (processEvent X m db rid (.text c)).mgr rid = _
      simp only [accumulatedOf, h1, hp, hmsgs]
      exact (String.empty_append c).symm
  | cons msg0 rest =>
      obtain ⟨h1, -, -⟩ :=
        processEvent_text_facts X m db rid c reply msg0 rest hp hmsgs
      show accumulatedOf (processEvent X m db rid (.text c)).mgr rid = _
      simp only [accumulatedOf, h1, hp, hmsgs]

/-- Witness for the amended C9 at the concrete finished state of r1. -/
theorem c9_terminal_not_absorbing_witness :
    accumulatedOf (handleAgentEvents depsBasic finishedW.mgr finishedW.db "r1"
        [.text "B"]).mgr "r1"
      = accumulatedOf finishedW.mgr "r1" ++ "B" :=
  c9_terminal_not_absorbing depsBasic finishedW.mgr finishedW.db "r1" "B"
    { conversationId := "c1", replyId := "r1", userId := "alice"
      messages := [{ id := none, accumulatedContent := "A"
                     content := [.text "A"], role := "assistant" }]
      finished := true, cancelled := false }
    rfl rfl

end C9Theorems

section C3Theorems

theorem handleAgentEvents_sseCallbacks (X : ExternalDeps) (m : ManagerState)
    (db : DB) (rid0 : String) (events : List AgentEvent) :
    (handleAgentEvents X m db rid0 events).mgr.sseCallbacks = m.sseCallbacks := by
  unfold handleAgentEvents
  cases hl : alistLookup m.pendingReplies rid0 with
  | none => simp only [hl]
  | some reply =>
      simp only [hl]
      exact processEvents_sseCallbacks X events m db rid0

theorem handleAgentEvents_noDeliver (X : ExternalDeps) (m : ManagerState)
    (db : DB) (rid : String) (events : List AgentEvent)
    (h : m.sseCallbacks.contains rid = false) :
    (handleAgentEvents X m db rid events).mgr.sseDelivered = m.sseDelivered := by
  unfold handleAgentEvents
  cases hl : alistLookup m.pendingReplies rid with
  | none => simp only [hl]
  | some reply =>
      simp only [hl]
      exact processEvents_noDeliver X events m db rid h

theorem runBatches_noDeliver (X : ExternalDeps) :
    ∀ (batches : List (List AgentEvent)) (m : ManagerState) (db : DB) (rid : String),
    m.sseCallbacks.contains rid = false →
    (runBatches X m db rid batches).1.sseDelivered = m.sseDelivered := by
  intro batches
  induction batches with
  | nil => intro m db rid _; rfl
  | cons b rest ih =>
      intro m db rid h
      show (runBatches X _ _ rid rest).1.sseDelivered = _
      rw [ih _ _ _ (by rw [handleAgentEvents_sseCallbacks]; exact h),
        handleAgentEvents_noDeliver _ _ _ _ _ h]

/-- Counterexample to C3 as stated: the text event lost arrives between the
subprocess spawn and the SSE callback registration; the stream carries only
the start and done frames and the chunk never reaches the client. -/
theorem c3_counterexample_event_lost :
    lostEventRunW.1 = [Frame.start "c1" "r1", Frame.done]
    ∧ Frame.msg (SSEMsg.chunk "lost") ∉ lostEventRunW.1 := by
  have h1 : lostEventRunW.1 = [Frame.start "c1" "r1", Frame.done] := rfl
  refine ⟨h1, ?_⟩
  rw [h1]
  simp

/-- C3 amended: the start frame is yielded before the subprocess is spawned,
so it heads the stream ahead of every agent-produced event; but the SSE
callback is registered only after spawnAgent returns, and every event batch
handled before registration delivers nothing to the stream (pushToSSEQueue
finds no callback), so such events are lost. -/
theorem c3_start_first_preregistration_lost (X : ExternalDeps) (p : SpawnParams)
    (beforeRegister afterRegister : List (List AgentEvent)) :
    (streamingScenarioFinished X p beforeRegister afterRegister).1.head?
      = some (.start p.conversationId p.replyId)
    ∧ (∀ (batches : List (List AgentEvent)) (m : ManagerState) (db : DB)
        (rid : String),
        m.sseCallbacks.contains rid = false →
        (runBatches X m db rid batches).1.sseDelivered = m.sseDelivered)
    ∧ (runBatches X (spawnAgent {} {} p).1 (spawnAgent {} {} p).2 p.replyId
        beforeRegister).1.sseDelivered = [] := by
  refine ⟨rfl, runBatches_noDeliver X, ?_⟩
  exact runBatches_noDeliver X beforeRegister _ _ _ rfl

/-- Witness for the amended C3: the concrete lost-event run keeps an empty
delivery log before registration and its stream opens with start. -/
theorem c3_start_first_preregistration_lost_witness :
    lostEventRunW.1.head? = some (.start "c1" "r1")
    ∧ (runBatches depsBasic (spawnAgent {} {} paramsW).1
        (spawnAgent {} {} paramsW).2 "r1" [[.text "lost"]]).1.sseDelivered = [] := by
  have h := c3_start_first_preregistration_lost depsBasic paramsW
    [[.text "lost"]] []
  exact ⟨h.1, h.2.2⟩

end C3Theorems

section C4Theorems

theorem framesOfQueue_no_error :
    ∀ (q : List (Option SSEMsg)) (s : String), Frame.error s ∉ framesOfQueue q := by
  intro q
  induction q with
  | nil => intro s; simp [framesOfQueue]
  | cons x rest ih =>
      intro s
      cases x with
      | none => simp [framesOfQueue]
      | some v =>
          simp only [framesOfQueue, List.mem_cons]
          rintro (h | h)
          · exact Frame.noConfusion h
          · exact ih s h

theorem framesOfQueue_done_mem :
    ∀ (q : List (Option SSEMsg)), Frame.done ∈ framesOfQueue q := by
  intro q
  induction q with
  | nil => simp [framesOfQueue]
  | cons x rest ih =>
      cases x with
      | none => simp [framesOfQueue]
      | some v =>
          simp only [framesOfQueue, List.mem_cons]
          exact Or.inr ih

theorem alistLookup_eq_none_of_not_mem_keys {α : Type}
    (l : List (String × α)) (k : String) (h : k ∉ l.map Prod.fst) :
    alistLookup l k = none := by
  induction l with
  | nil => rfl
  | cons hd tl ih =>
      obtain ⟨k0, v0⟩ := hd
      simp only [List.map_cons, List.mem_cons] at h
      push_neg at h
      simp only [alistLookup, ih h.2]
      rw [if_neg (Ne.symm h.1)]

theorem alistLookup_alistEraseKey_self {α : Type}
    (l : List (String × α)) (k : String) (h : (l.map Prod.fst).Nodup) :
    alistLookup (alistEraseKey l k) k = none := by
  induction l with
  | nil => rfl
  | cons hd tl ih =>
      obtain ⟨k0, v0⟩ := hd
      simp only [List.map_cons, List.nodup_cons] at h
      by_cases h0 : k0 = k
      · simp only [alistEraseKey, if_pos h0]
        exact alistLookup_eq_none_of_not_mem_keys tl k (h0 ▸ h.1)
      · simp only [alistEraseKey, if_neg h0, alistLookup, if_neg h0]
        exact ih h.2

theorem onChildExit_removes (m : ManagerState) (rid cid : String)
    (hp : m.processes.Nodup)
    (hs : ∀ s, alistLookup m.conversationAgents cid = some s → s.Nodup)
    (hk : (m.conversationAgents.map Prod.fst).Nodup) :
    rid ∉ (onChildExit m rid cid).processes
    ∧ rid ∉ ((alistLookup (onChildExit m rid cid).conversationAgents cid).getD []) := by
  constructor
  · unfold onChildExit
    cases hl : alistLookup m.conversationAgents cid with
    | none =>
        simp only [hl]
        exact hp.not_mem_erase
    | some convAgents =>
        simp only [hl]
        split
        · exact hp.not_mem_erase
        · exact hp.not_mem_erase
  · unfold onChildExit
    cases hl : alistLookup m.conversationAgents cid with
    | none =>
        simp only [hl]
        simp
    | some convAgents =>
        simp only [hl]
        split
        · rw [alistLookup_alistEraseKey_self _ _ hk]
          simp
        · rw [alistLookup_alistInsert_self]
          exact (hs convAgents hl).not_mem_erase

theorem handleAgentEvents_db_sessions (X : ExternalDeps) (m : ManagerState)
    (db : DB) (rid : String) (events : List AgentEvent) :
    (handleAgentEvents X m db rid events).db.agentSessions = db.agentSessions := by
  unfold handleAgentEvents
  cases hl : alistLookup m.pendingReplies rid with
  | none => simp only [hl]
  | some reply =>
      simp only [hl]
      exact processEvents_db_sessions X events m db rid

theorem runBatches_db_sessions (X : ExternalDeps) :
    ∀ (batches : List (List AgentEvent)) (m : ManagerState) (db : DB) (rid : String),
    (runBatches X m db rid batches).2.agentSessions = db.agentSessions := by
  intro batches
  induction batches with
  | nil => intro m db rid; rfl
  | cons b rest ih =>
      intro m db rid
      show (runBatches X _ _ rid rest).2.agentSessions = _
      rw [ih, handleAgentEvents_db_sessions]

theorem spawnAgent_empty_sessions (p : SpawnParams) :
    (spawnAgent {} {} p).2.agentSessions = [(p.replyId, "RUNNING")] := by
  simp [spawnAgent, alistLookup, alistUpdate]

/-- Counterexample to C4 as stated: after the subprocess of r1 exits without
a finished callback, the stream holds only start, the pending chunk, and
done, with no error frame, and the durable session record still says
RUNNING, not FAILED; only the process map and conversation index entries
are gone. -/
theorem c4_counterexample_no_failed_event :
    crashRunW.1 = [Frame.start "c1" "r1", Frame.msg (.chunk "hi"), Frame.done]
    ∧ (∀ s, Frame.error s ∉ crashRunW.1)
    ∧ alistLookup crashRunW.2.2.agentSessions "r1" = some "RUNNING"
    ∧ ¬ alistLookup crashRunW.2.2.agentSessions "r1" = some "FAILED"
    ∧ crashRunW.2.1.processes = []
    ∧ alistLookup crashRunW.2.1.conversationAgents "c1" = none := by
  have h1 : crashRunW.1
      = [Frame.start "c1" "r1", Frame.msg (.chunk "hi"), Frame.done] := rfl
  refine ⟨h1, ?_, rfl, ?_, rfl, rfl⟩
  · intro s
    rw [h1]
    simp
  · have h2 : alistLookup crashRunW.2.2.agentSessions "r1" = some "RUNNING" := rfl
    rw [h2]
    decide

/-- C4 amended: when the subprocess exits without a finished callback, the
exit listener removes the reply from the process map and the conversation
index; no failed or error frame is ever produced (the drain emits the
pending messages and then done), and the durable agent-session record keeps
its RUNNING status rather than being marked failed. -/
theorem c4_crash_without_finished (X : ExternalDeps) (p : SpawnParams)
    (batches : List (List AgentEvent)) :
    (∀ s, Frame.error s ∉ (streamingScenarioCrashed X p batches).1)
    ∧ Frame.done ∈ (streamingScenarioCrashed X p batches).1
    ∧ (streamingScenarioCrashed X p batches).2.2.agentSessions
        = [(p.replyId, "RUNNING")]
    ∧ (∀ (m : ManagerState) (rid cid : String),
        m.processes.Nodup →
        (∀ s, alistLookup m.conversationAgents cid = some s → s.Nodup) →
        (m.conversationAgents.map Prod.fst).Nodup →
        rid ∉ (onChildExit m rid cid).processes
        ∧ rid ∉ ((alistLookup (onChildExit m rid cid).conversationAgents cid).getD [])) := by
  refine ⟨?_, ?_, ?_, fun m rid cid hp hs hk => onChildExit_removes m rid cid hp hs hk⟩
  · intro s
    show Frame.error s ∉ Frame.start p.conversationId p.replyId :: framesOfQueue _
    simp only [List.mem_cons]
    rintro (h | h)
    · exact Frame.noConfusion h
    · exact framesOfQueue_no_error _ s h
  · show Frame.done ∈ Frame.start p.conversationId p.replyId :: framesOfQueue _
    simp only [List.mem_cons]
    exact Or.inr (framesOfQueue_done_mem _)
  · show (runBatches X _ _ p.replyId batches).2.agentSessions = _
    rw [runBatches_db_sessions, spawnAgent_empty_sessions]

/-- Witness for the amended C4 at the concrete crash run. -/
theorem c4_crash_without_finished_witness :
    Frame.done ∈ crashRunW.1
    ∧ crashRunW.2.2.agentSessions = [("r1", "RUNNING")]
    ∧ "r1" ∉ (onChildExit (registerSSECallback (spawnAgent {} {} paramsW).1 "r1")
        "r1" "c1").processes := by
  have h := c4_crash_without_finished depsBasic paramsW [[.text "hi"]]
  refine ⟨h.2.1, h.2.2.1, ?_⟩
  exact (h.2.2.2 (registerSSECallback (spawnAgent {} {} paramsW).1 "r1") "r1" "c1"
    (by decide) (by intro s hsome; cases hsome; decide) (by decide)).1

end C4Theorems

section C5C6Theorems

theorem terminateAgent_found_pushes (m : ManagerState) (db : DB) (rid : String)
    (reply : PendingReply)
    (hp : alistLookup m.pendingReplies rid = some reply) :
    (terminateAgent m db rid).found = true
    ∧ (terminateAgent m db rid).pushes = [some (.cancelled "用户终止了请求"), none]
    ∧ alistLookup (terminateAgent m db rid).mgr.pendingReplies rid
        = some { reply with finished := true, cancelled := true }
    ∧ (∀ msg0, reply.messages = [msg0] → msg0.id = none →
        ¬ msg0.accumulatedContent = "" →
        (terminateAgent m db rid).db.messages.length = db.messages.length + 1) := by
  simp only [terminateAgent, hp]
  refine ⟨trivial, trivial, ?_, ?_⟩
  · rw [pushToSSEQueue_pendingReplies, pushToSSEQueue_pendingReplies,
      alistLookup_alistUpdate_self]
    show (alistLookup m.pendingReplies rid).map _ = _
    rw [hp]
    rfl
  · intro msg0 hm hid hacc
    show (saveMessages db reply).messages.length = _
    unfold saveMessages
    rw [hm]
    simp only [List.foldl]
    rw [if_neg hacc, hid]
    show (db.messages ++ [_]).length = _
    simp [List.length_append]

/-- Counterexample to C5 as stated: the reply r1 is owned by alice, yet the
interrupt issued by bob returns HTTP 200 with success and cancels the
reply; no 403 occurs and the reply does not continue. -/
theorem c5_counterexample_cross_user_interrupt :
    ((alistLookup spawnedW.1.pendingReplies "r1").map (fun r => r.userId))
      = some "alice"
    ∧ (interruptRoute spawnedW.1 spawnedW.2 "bob" "r1").2.2.success = true
    ∧ (interruptRoute spawnedW.1 spawnedW.2 "bob" "r1").2.2.httpStatus = 200
    ∧ ¬ (interruptRoute spawnedW.1 spawnedW.2 "bob" "r1").2.2.httpStatus = 403
    ∧ ((alistLookup (interruptRoute spawnedW.1 spawnedW.2 "bob" "r1").1.pendingReplies
          "r1").map (fun r => r.cancelled)) = some true := by
  refine ⟨rfl, rfl, rfl, ?_, rfl⟩
  have h : (interruptRoute spawnedW.1 spawnedW.2 "bob" "r1").2.2.httpStatus = 200 := rfl
  rw [h]
  decide

/-- C5 amended: the interrupt route never compares the caller with the
owner of the reply: for every caller, an existing reply is terminated and
the route answers HTTP 200 with success true; a missing reply id answers
HTTP 200 with success false and changes nothing; no 403 is produced. -/
theorem c5_interrupt_ignores_ownership (m : ManagerState) (db : DB)
    (callerUserId rid : String) (reply : PendingReply)
    (hp : alistLookup m.pendingReplies rid = some reply) :
    (interruptRoute m db callerUserId rid).2.2 = ⟨200, true⟩
    ∧ alistLookup (interruptRoute m db callerUserId rid).1.pendingReplies rid
        = some { reply with finished := true, cancelled := true }
    ∧ (∀ (m0 : ManagerState) (db0 : DB) (c0 rid0 : String),
        alistLookup m0.pendingReplies rid0 = none →
        interruptRoute m0 db0 c0 rid0 = (m0, db0, ⟨200, false⟩)) := by
  obtain ⟨hfound, -, hlook, -⟩ := terminateAgent_found_pushes m db rid reply hp
  refine ⟨?_, hlook, ?_⟩
  · show InterruptResponse.mk 200 (terminateAgent m db rid).found = _
    rw [hfound]
  · intro m0 db0 c0 rid0 h0
    show (_, _, InterruptResponse.mk 200 (terminateAgent m0 db0 rid0).found)
        = (m0, db0, ⟨200, false⟩)
    simp only [terminateAgent, h0]

/-- Witness for the amended C5: bob interrupts the reply of alice and gets
success; an unknown reply id yields a no-op failure. -/
theorem c5_interrupt_ignores_ownership_witness :
    (interruptRoute spawnedW.1 spawnedW.2 "bob" "r1").2.2 = ⟨200, true⟩
    ∧ interruptRoute spawnedW.1 spawnedW.2 "bob" "nope"
        = (spawnedW.1, spawnedW.2, ⟨200, false⟩) := by
  have h := c5_interrupt_ignores_ownership spawnedW.1 spawnedW.2 "bob" "r1"
    { conversationId := "c1", replyId := "r1", userId := "alice"
      messages := [], finished := false }
    rfl
  exact ⟨h.1, h.2.2 spawnedW.1 spawnedW.2 "bob" "nope" rfl⟩

/-- Counterexample to C6 as stated: after the first successful termination
of r1, a second call is not a no-op: it again reports success, injects a
second cancelled plus end-of-stream pair, and persists a second copy of the
accumulated assistant message. -/
theorem c6_counterexample_double_terminate :
    terminatedOnceW.found = true
    ∧ terminatedOnceW.db.messages.length = 1
    ∧ terminatedTwiceW.found = true
    ∧ terminatedTwiceW.pushes = [some (.cancelled "用户终止了请求"), none]
    ∧ terminatedTwiceW.db.messages.length = 2 :=
  ⟨rfl, rfl, rfl, rfl, rfl⟩

/-- C6 amended: terminateAgent is not idempotent, because the pending reply
entry survives termination with its messages intact: a second call for the
same reply id again returns true, again pushes the synthetic cancelled
event and the end signal, and, when the accumulated message has no stable
id and nonempty text, appends one more assistant message row; only a
missing pending reply (for example after cleanup) makes the call a no-op. -/
theorem c6_terminate_not_idempotent (m : ManagerState) (db : DB) (rid : String)
    (reply : PendingReply)
    (hp : alistLookup m.pendingReplies rid = some reply) :
    alistLookup (terminateAgent m db rid).mgr.pendingReplies rid
      = some { reply with finished := true, cancelled := true }
    ∧ (terminateAgent (terminateAgent m db rid).mgr
        (terminateAgent m db rid).db rid).found = true
    ∧ (terminateAgent (terminateAgent m db rid).mgr
        (terminateAgent m db rid).db rid).pushes
        = [some (.cancelled "用户终止了请求"), none]
    ∧ (∀ msg0, reply.messages = [msg0] → msg0.id = none →
        ¬ msg0.accumulatedContent = "" →
        (terminateAgent (terminateAgent m db rid).mgr
          (terminateAgent m db rid).db rid).db.messages.length
          = (terminateAgent m db rid).db.messages.length + 1) := by
  obtain ⟨-, -, hr1, -⟩ := terminateAgent_found_pushes m db rid reply hp
  obtain ⟨hf2, hp2, -, hlen2⟩ := terminateAgent_found_pushes
    (terminateAgent m db rid).mgr (terminateAgent m db rid).db rid _ hr1
  refine ⟨hr1, hf2, hp2, ?_⟩
  intro msg0 hm hid hacc
  exact hlen2 msg0 (by show reply.messages = [msg0]; exact hm) hid hacc

/-- Witness for the amended C6 at the concrete double termination of r1. -/
theorem c6_terminate_not_idempotent_witness :
    terminatedTwiceW.found = true
    ∧ terminatedTwiceW.db.messages.length
        = terminatedOnceW.db.messages.length + 1 := by
  have h := c6_terminate_not_idempotent partialW.mgr partialW.db "r1"
    { conversationId := "c1", replyId := "r1", userId := "alice"
      messages := [{ id := none, accumulatedContent := "partial"
                     content := [.text "partial"], role := "assistant" }]
      finished := false }
    rfl
  refine ⟨h.2.1, ?_⟩
  exact h.2.2.2
    { id := none, accumulatedContent := "partial"
      content := [.text "partial"], role := "assistant" }
    rfl rfl (by decide)

end C5C6Theorems

section C8Theorems

theorem countTestcases_append (a b : List (Option SSEMsg)) :
    countTestcases (a ++ b) = countTestcases a + countTestcases b := by
  induction a with
  | nil => simp [countTestcases]
  | cons x rest ih =>
      cases x with
      | none => simpa [countTestcases] using ih
      | some msg =>
          cases msg
          all_goals simp [countTestcases, ih]
          all_goals omega

theorem extract_cases2 (X : ExternalDeps) (m : ManagerState) (rid t : String) :
    ((extractAndPushTestcases X m rid t).2 = []
      ∧ (extractAndPushTestcases X m rid t).1.extractedTestcaseReplies
          = m.extractedTestcaseReplies)
    ∨ (countTestcases (extractAndPushTestcases X m rid t).2 = 1
      ∧ m.extractedTestcaseReplies.contains rid = false
      ∧ (extractAndPushTestcases X m rid t).1.extractedTestcaseReplies.contains rid
          = true) := by
  unfold extractAndPushTestcases
  by_cases h0 : m.extractedTestcaseReplies.contains rid = true
  · rw [if_pos h0]
    exact Or.inl ⟨rfl, rfl⟩
  · have h0f : m.extractedTestcaseReplies.contains rid = false := by
      cases hb : m.extractedTestcaseReplies.contains rid
      · rfl
      · exact absurd hb h0
    rw [if_neg h0]
    repeat' split
    all_goals first
      | exact Or.inl ⟨rfl, rfl⟩
      | exact Or.inr ⟨rfl, h0f, by
          rw [pushToSSEQueue_extracted]
          exact setAdd_contains_self _ _⟩

theorem text_extract_step (X : ExternalDeps) (m0 m2 : ManagerState)
    (rid t c : String)
    (hex : m2.extractedTestcaseReplies = m0.extractedTestcaseReplies) :
    (countTestcases (some (SSEMsg.chunk c) :: (extractAndPushTestcases X m2 rid t).2) = 0
      ∧ (extractAndPushTestcases X m2 rid t).1.extractedTestcaseReplies.contains rid
          = m0.extractedTestcaseReplies.contains rid)
    ∨ (countTestcases (some (SSEMsg.chunk c) :: (extractAndPushTestcases X m2 rid t).2) = 1
      ∧ m0.extractedTestcaseReplies.contains rid = false
      ∧ (extractAndPushTestcases X m2 rid t).1.extractedTestcaseReplies.contains rid
          = true) := by
  rcases extract_cases2 X m2 rid t with ⟨he1, he2⟩ | ⟨he1, he2, he3⟩
  · refine Or.inl ⟨?_, ?_⟩
    · rw [he1]
      rfl
    · rw [he2, hex]
  · refine Or.inr ⟨he1, ?_, he3⟩
    rw [← hex]
    exact he2

theorem processEvent_testcases_step (X : ExternalDeps) (m : ManagerState)
    (db : DB) (rid : String) (e : AgentEvent) :
    (countTestcases (processEvent X m db rid e).pushes = 0
      ∧ (processEvent X m db rid e).mgr.extractedTestcaseReplies.contains rid
          = m.extractedTestcaseReplies.contains rid)
    ∨ (countTestcases (processEvent X m db rid e).pushes = 1
      ∧ m.extractedTestcaseReplies.contains rid = false
      ∧ (processEvent X m db rid e).mgr.extractedTestcaseReplies.contains rid
          = true) := by
  cases e with
  | text c =>
      simp only [processEvent]
      cases hl : alistLookup m.pendingReplies rid with
      | none =>
          simp only [hl]
          exact Or.inl ⟨rfl, trivial⟩
      | some reply =>
          simp only [hl, List.singleton_append]
          exact text_extract_step X m _ rid _ c (by rw [pushToSSEQueue_extracted])
  | thinking c =>
      refine Or.inl ⟨rfl, ?_⟩
      show (pushToSSEQueue m rid _).extractedTestcaseReplies.contains rid = _
      rw [pushToSSEQueue_extracted]
  | toolCall id name input =>
      simp only [processEvent]
      split
      · exact Or.inl ⟨rfl, rfl⟩
      · refine Or.inl ⟨rfl, ?_⟩
        rw [pushToSSEQueue_extracted]
  | toolResult id name output success =>
      simp only [processEvent]
      split
      · exact Or.inl ⟨rfl, rfl⟩
      · refine Or.inl ⟨rfl, ?_⟩
        rw [pushToSSEQueue_extracted]
  | coordinatorEvent ty d =>
      refine Or.inl ⟨rfl, ?_⟩
      show (pushToSSEQueue m rid _).extractedTestcaseReplies.contains rid = _
      rw [pushToSSEQueue_extracted]

theorem processEvents_testcases_go (X : ExternalDeps) (rid : String) :
    ∀ (events : List AgentEvent) (m : ManagerState) (db : DB),
    (m.extractedTestcaseReplies.contains rid = true →
        countTestcases (processEvents X m db rid events).pushes = 0
      ∧ (processEvents X m db rid events).mgr.extractedTestcaseReplies.contains rid
          = true)
    ∧ (m.extractedTestcaseReplies.contains rid = false →
        countTestcases (processEvents X m db rid events).pushes ≤ 1) := by
  intro events
  induction events with
  | nil =>
      intro m db
      exact ⟨fun h => ⟨rfl, h⟩, fun _ => by simp [processEvents, countTestcases]⟩
  | cons e rest ih =>
      intro m db
      have hsplit : countTestcases (processEvents X m db rid (e :: rest)).pushes
          = countTestcases (processEvent X m db rid e).pushes
            + countTestcases (processEvents X (processEvent X m db rid e).mgr
                (processEvent X m db rid e).db rid rest).pushes := by
        show countTestcases ((processEvent X m db rid e).pushes ++ _) = _
        rw [countTestcases_append]
      have hmgr : (processEvents X m db rid (e :: rest)).mgr
          = (processEvents X (processEvent X m db rid e).mgr
              (processEvent X m db rid e).db rid rest).mgr := rfl
      rcases processEvent_testcases_step X m db rid e with ⟨hc0, hsame⟩ | ⟨hc1, hfalse, htrue⟩
      · constructor
        · intro h
          have h1 := hsame.trans h
          obtain ⟨hz, hflag⟩ := (ih _ (processEvent X m db rid e).db).1 h1
          refine ⟨?_, ?_⟩
          · rw [hsplit, hc0, hz]
          · rw [hmgr]
            exact hflag
        · intro h
          have h1 := hsame.trans h
          have h2 := (ih _ (processEvent X m db rid e).db).2 h1
          rw [hsplit, hc0]
          omega
      · constructor
        · intro h
          rw [h] at hfalse
          exact absurd hfalse (by simp)
        · intro _
          obtain ⟨hz, -⟩ := (ih _ (processEvent X m db rid e).db).1 htrue
          rw [hsplit, hc1, hz]

/-- Counterexample to C8 as stated: the accumulated text c8str has exactly
100 characters, so it does not exceed 100, yet extraction fires and emits
the testcases event. -/
theorem c8_counterexample_boundary :
    c8str.length = 100
    ∧ ¬ 100 < c8str.length
    ∧ (extractAndPushTestcases deps8 {} "r1" c8str).2
        = [some (.testcases (.str "ok") (.num 1) [.num 1])] := by
  refine ⟨rfl, ?_, rfl⟩
  have h : c8str.length = 100 := rfl
  rw [h]
  decide

/-- C8 amended: for every reply at most one testcases event is ever emitted,
and one is emitted exactly when the one-shot flag is unset, the accumulated
text is nonempty and AT LEAST 100 characters long (the code tests
length < 100, so exactly 100 characters already fires), contains one of the
four hint tokens, and the greedy braces match around the quoted word testcases
parses as JSON with a nonempty testcases array; the payload carries the
status, the count, and the testcases. -/
theorem c8_testcases_extraction (X : ExternalDeps) :
    (∀ (m : ManagerState) (rid t : String),
        m.extractedTestcaseReplies.contains rid = true →
        extractAndPushTestcases X m rid t = (m, []))
    ∧ (∀ (m : ManagerState) (rid t : String), t.length < 100 →
        (extractAndPushTestcases X m rid t).2 = [])
    ∧ (∀ (m : ManagerState) (rid t : String),
        (testcaseKeywords.any (fun kw => strIncludes t kw)) = false →
        (extractAndPushTestcases X m rid t).2 = [])
    ∧ (∀ (m : ManagerState) (rid t : String),
        matchTestcasesRegex t = none →
        (extractAndPushTestcases X m rid t).2 = [])
    ∧ (∀ (m : ManagerState) (rid t mt : String),
        matchTestcasesRegex t = some mt → X.parseJson mt = none →
        (extractAndPushTestcases X m rid t).2 = [])
    ∧ (∀ (m : ManagerState) (rid t mt : String) (d : Jv) (tcs : List Jv),
        m.extractedTestcaseReplies.contains rid = false →
        ¬ t = "" → ¬ t.length < 100 →
        (testcaseKeywords.any (fun kw => strIncludes t kw)) = true →
        matchTestcasesRegex t = some mt →
        X.parseJson mt = some d →
        objLookup d "testcases" = some (.arr tcs) →
        tcs.isEmpty = false →
        extractAndPushTestcases X m rid t
          = (pushToSSEQueue
              { m with extractedTestcaseReplies :=
                  (setAdd m.extractedTestcaseReplies rid) } rid
              (some (.testcases (jsGetOr d "status" (.str "unknown"))
                (jsGetOr d "count" (.num tcs.length)) tcs)),
             [some (.testcases (jsGetOr d "status" (.str "unknown"))
                (jsGetOr d "count" (.num tcs.length)) tcs)]))
    ∧ (∀ (events : List AgentEvent) (m : ManagerState) (db : DB) (rid : String),
        countTestcases (processEvents X m db rid events).pushes ≤ 1) := by
  refine ⟨extract_flag_stop X, ?_, ?_, ?_, ?_, ?_, ?_⟩
  · intro m rid t h
    unfold extractAndPushTestcases
    by_cases h0 : m.extractedTestcaseReplies.contains rid = true
    · rw [if_pos h0]
    · rw [if_neg h0, if_pos (by simp [h])]
  · intro m rid t h
    unfold extractAndPushTestcases
    by_cases h0 : m.extractedTestcaseReplies.contains rid = true
    · rw [if_pos h0]
    · rw [if_neg h0]
      split
      · rfl
      · rw [if_pos (by simp [h])]
  · intro m rid t h
    unfold extractAndPushTestcases
    by_cases h0 : m.extractedTestcaseReplies.contains rid = true
    · rw [if_pos h0]
    · rw [if_neg h0]
      split
      · rfl
      · split
        · rfl
        · simp only [h]
  · intro m rid t mt hmt hparse
    unfold extractAndPushTestcases
    by_cases h0 : m.extractedTestcaseReplies.contains rid = true
    · rw [if_pos h0]
    · rw [if_neg h0]
      split
      · rfl
      · split
        · rfl
        · simp only [hmt, hparse]
  · intro m rid t mt d tcs h0 ht hlen hkw hmt hparse hlook hne
    unfold extractAndPushTestcases
    rw [if_neg (by rw [h0]; simp), if_neg (by simp [ht, hlen]),
      if_neg (by simp [hkw])]
    simp only [hmt, hparse, hlook]
    rw [if_neg (by simp [hne])]
  · intro events m db rid
    by_cases h : m.extractedTestcaseReplies.contains rid = true
    · rw [((processEvents_testcases_go X rid events m db).1 h).1]
      omega
    · have hf : m.extractedTestcaseReplies.contains rid = false := by
        cases hb : m.extractedTestcaseReplies.contains rid
        · rfl
        · exact absurd hb h
      exact (processEvents_testcases_go X rid events m db).2 hf

/-- Witness for the amended C8: at the concrete 100-character text the
positive branch fires with the expected payload, and with the flag already
set the call is a no-op. -/
theorem c8_testcases_extraction_witness :
    (extractAndPushTestcases deps8 {} "r1" c8str).2 = [c8msg]
    ∧ extractAndPushTestcases deps8 m8flag "r1" c8str = (m8flag, []) := by
  have h := c8_testcases_extraction deps8
  constructor
  · have hpos := h.2.2.2.2.2.1 {} "r1" c8str c8str c8obj [.num 1]
      rfl (by decide) (by rw [(rfl : c8str.length = 100)]; decide)
      rfl rfl rfl rfl rfl
    rw [hpos]
    rfl
  · exact h.1 m8flag "r1" c8str rfl

end C8Theorems

end TAC
